import Mathlib

/-
Verification of the control-flow structurer (angr decompiler, structurer.py).

The definitions below are a shallow embedding of the Python source:
  * `AilExpr` models the subset of ailment expressions the structurer
    manipulates (Load, Register, Convert, Const, UnaryOp, BinaryOp);
  * `CExpr` models the claripy boolean/bitvector ASTs used for reaching and
    edge conditions; claripy variables created with `explicit_name=True` are
    identified by their name string, exactly as in claripy;
  * `PNode` models the dynamically-typed node universe the per-region
    Structurer walks over (ailment.Block, MultiNode, GraphRegion,
    SequenceNode, CodeNode, ConditionNode, LoopNode, BreakNode,
    ConditionalBreakNode);
  * `PyErr` models the Python exceptions raised by the source
    (EmptyBlockNotice, NotImplementedError, the bare `raise Exception()`
    calls, AssertionError, IndexError, AttributeError).

External collaborators (the claripy simplifier in particular) are passed in
as explicit function parameters where the source calls out to them.
-/

set_option autoImplicit false

namespace Structurer

/-- Addresses and jump targets are Python ints (the sentinel target used by
loop-successor refinement is the literal `-1`). -/
abbrev Addr := Int

/-- The subset of ailment expressions handled by the structurer
(`_bool_variable_from_ail_condition`, `_negate_cond`). `uid` on `load`
stands for the identity that `repr` of the Python object exposes. -/
inductive AilExpr where
  | load (bits : Nat) (uid : Nat)
  | register (bits : Nat) (regn : Nat) (idx : Nat)
  | convert (fromBits toBits : Nat) (operand : AilExpr)
  | const (value : Int) (bits : Nat)
  | unop (op : String) (operand : AilExpr)
  | binop (op : String) (op1 op2 : AilExpr)
  deriving DecidableEq, Repr

/-- Claripy ASTs as used by the structurer: literal true, opaque boolean and
bitvector variables (identified, as in claripy with `explicit_name=True`, by
their name string), bitvector values, boolean values, Not/And/Or, and the
remaining binary operators (`__eq__`, `__le__`, comparisons, arithmetic)
collapsed into a generic tagged binary node.  `clshr` models
`claripy.LShR(x, n)` whose second argument is a plain int in the source. -/
inductive CExpr where
  | ctrue
  | boolS (name : String)
  | bvs (name : String) (bits : Nat)
  | bvv (value : Int) (bits : Nat)
  | boolV (b : Bool)
  | cnot (e : CExpr)
  | cand (e1 e2 : CExpr)
  | cor (e1 e2 : CExpr)
  | cbin (op : String) (e1 e2 : CExpr)
  | clshr (e : CExpr) (shift : Int)
  deriving DecidableEq, Repr

/-- Boolean evaluation of a claripy AST under a valuation `v` of its atoms
(variables, bitvector leaves and non-boolean composite atoms). -/
def evalC (v : CExpr → Bool) : CExpr → Bool
  | .ctrue => true
  | .boolV b => b
  | .cnot e => !(evalC v e)
  | .cand a b => evalC v a && evalC v b
  | .cor a b => evalC v a || evalC v b
  | e => v e

/-- The Python exceptions the structurer can raise. -/
inductive PyErr where
  | emptyBlockErr
  | notImplementedErr
  | genericExc
  | assertionFailed
  | indexErr
  | attrErr
  deriving DecidableEq, Repr

/-- A deterministic rendering of an ailment expression, standing in for the
Python `repr` used to build `explicit_name` claripy variable names.  Like
`repr`, it is injective on the expressions we model. -/
def ailRepr : AilExpr → String
  | .load bits uid => "Load(" ++ toString bits ++ "," ++ toString uid ++ ")"
  | .register bits regn idx =>
      "Register(" ++ toString bits ++ "," ++ toString regn ++ "," ++ toString idx ++ ")"
  | .convert fb tb e => "Convert(" ++ toString fb ++ "->" ++ toString tb ++ "," ++ ailRepr e ++ ")"
  | .const v bits => "Const(" ++ toString v ++ "," ++ toString bits ++ ")"
  | .unop op e => "UnaryOp(" ++ op ++ "," ++ ailRepr e ++ ")"
  | .binop op a b => "BinaryOp(" ++ op ++ "," ++ ailRepr a ++ "," ++ ailRepr b ++ ")"

/-- Rendering of a claripy AST, standing in for Python `repr` of the inner
variable in the `Convert` naming scheme of
`_bool_variable_from_ail_condition`. -/
def cexprRepr : CExpr → String
  | .ctrue => "true"
  | .boolS n => "BoolS(" ++ n ++ ")"
  | .bvs n bits => "BVS(" ++ n ++ "," ++ toString bits ++ ")"
  | .bvv v bits => "BVV(" ++ toString v ++ "," ++ toString bits ++ ")"
  | .boolV b => "BoolV(" ++ toString b ++ ")"
  | .cnot e => "Not(" ++ cexprRepr e ++ ")"
  | .cand a b => "And(" ++ cexprRepr a ++ "," ++ cexprRepr b ++ ")"
  | .cor a b => "Or(" ++ cexprRepr a ++ "," ++ cexprRepr b ++ ")"
  | .cbin op a b => op ++ "(" ++ cexprRepr a ++ "," ++ cexprRepr b ++ ")"
  | .clshr e s => "LShR(" ++ cexprRepr e ++ "," ++ toString s ++ ")"

/-- The condition-variable mapping `self._condition_mapping`: a table from
claripy variables to the ailment expressions they stand for.  Python dict
assignment is modelled by prepending (lookups read the newest binding). -/
abbrev CondMap := List (CExpr × AilExpr)

/-- Lookup in the condition-variable mapping (`cond in self._condition_mapping`
/ `self._condition_mapping[cond]`). -/
def lookupMap (m : CondMap) (k : CExpr) : Option AilExpr :=
  (m.find? (fun p => p.1 = k)).map (fun p => p.2)

/-- Source `_negate_cond` (lines 1247-1252): if the condition is a `UnaryOp`
with op `Not`, unpack it; otherwise wrap it in a fresh `Not`. -/
def negateCond (cond : AilExpr) : AilExpr :=
  match cond with
  | .unop op e => if op = "Not" then e else .unop "Not" (.unop op e)
  | _ => .unop "Not" cond

/-- An expression of the shape `Not (Not x)`. -/
def isDoubleNot : AilExpr → Bool
  | .unop op (.unop op2 _) => op = "Not" && op2 = "Not"
  | _ => false

/-- The operator table `_mapping` of `_bool_variable_from_ail_condition`:
how each supported ailment binary operator combines the converted operands. -/
def ailBinOpTable (op : String) : Option (CExpr → CExpr → CExpr) :=
  match op with
  | "LogicalAnd" => some .cand
  | "LogicalOr" => some .cor
  | "CmpEQ" => some (.cbin "Eq")
  | "CmpLE" => some (.cbin "LE")
  | "CmpLT" => some (.cbin "LT")
  | "Add" => some (.cbin "Add")
  | "Sub" => some (.cbin "Sub")
  | "Xor" => some (.cbin "Xor")
  | "And" => some (.cbin "And")
  | _ => none

/-- Source `_bool_variable_from_ail_condition` (lines 1188-1245): translate
an ailment condition into a claripy AST, registering every opaque leaf in the
condition-variable mapping.  The mapping is only ever written, never read, by
this function, exactly as in the source.  `Shr` is special-cased because the
source reads `.value` off the second operand (an `AttributeError` if it is
not a constant); `Not` is the one supported unary operator. -/
def boolVariableFromAilCondition (m : CondMap) :
    AilExpr → Except PyErr (CExpr × CondMap)
  | c@(.load bits _) =>
      let var := CExpr.bvs ("ailexpr_" ++ ailRepr c) bits
      .ok (var, (var, c) :: m)
  | c@(.register bits _ idx) =>
      let var := CExpr.bvs ("ailexpr_" ++ ailRepr c ++ "-" ++ toString idx) bits
      .ok (var, (var, c) :: m)
  | c@(.convert fb tb inner) => do
      let (ivar, m1) ← boolVariableFromAilCondition m inner
      if tb = 1 then
        let var := CExpr.boolS
          ("ailcond_Conv(" ++ toString fb ++ "->" ++ toString tb ++ ", " ++ cexprRepr ivar ++ ")")
        .ok (var, (var, c) :: m1)
      else
        let var := CExpr.bvs
          ("ailexpr_Conv(" ++ toString fb ++ "->" ++ toString tb ++ ", " ++ cexprRepr ivar ++ ")") tb
        .ok (var, (var, c) :: m1)
  | .const v bits => .ok (.bvv v bits, m)
  | .unop op inner =>
      if op = "Not" then do
        let (ivar, m1) ← boolVariableFromAilCondition m inner
        .ok (.cnot ivar, m1)
      else .error .notImplementedErr
  | .binop op a b =>
      if op = "Shr" then do
        let (avar, m1) ← boolVariableFromAilCondition m a
        match b with
        | .const v _ => .ok (.clshr avar v, m1)
        | _ => .error .attrErr
      else
        match ailBinOpTable op with
        | some f => do
            let (avar, m1) ← boolVariableFromAilCondition m a
            let (bvar, m2) ← boolVariableFromAilCondition m1 b
            .ok (f avar bvar, m2)
        | none => .error .notImplementedErr

/-- Statements that can terminate a block: `ailment.Stmt.Jump` with a
constant target, `ailment.Stmt.ConditionalJump` with two constant targets,
and `assign` standing for every non-transfer statement kind. -/
inductive Stmt where
  | jump (target : Addr) (insAddr : Addr)
  | condJump (cond : AilExpr) (trueTarget falseTarget : Addr) (insAddr : Addr)
  | assign (uid : Nat)
  deriving DecidableEq, Repr

/-- Loop shape tags (`'while'` / `'do-while'`). -/
inductive LoopSort where
  | whileS
  | doWhileS
  deriving DecidableEq, Repr

/-- The dynamically-typed node universe of the structurer, parametric in the
type of the conditions held by Code/Condition/ConditionalBreak/Loop nodes
(claripy ASTs during structuring, ailment expressions after
`_remove_claripy_bool_asts`):
`block` = ailment.Block, `multi` = MultiNode, `regionN` = GraphRegion,
`seqN` = SequenceNode, `codeN` = CodeNode, `condN` = ConditionNode,
`loopN` = LoopNode (`addrO` is the `_addr` field), `breakN`/`condBreakN` =
BreakNode/ConditionalBreakNode. -/
inductive PNode (α : Type) where
  | block (addr : Addr) (stmts : List Stmt)
  | multi (addr : Addr) (nodes : List (PNode α))
  | regionN (addr : Addr)
  | seqN (nodes : List (PNode α))
  | codeN (node : PNode α) (reachingCondition : Option α)
  | condN (addr : Addr) (reachingCondition : Option α) (condition : α)
      (trueNode : PNode α) (falseNode : Option (PNode α))
  | loopN (sort : LoopSort) (condition : Option α) (body : List (PNode α)) (addrO : Option Addr)
  | breakN (addr : Addr) (target : Addr)
  | condBreakN (addr : Addr) (condition : α) (target : Addr)

namespace PNode

variable {α : Type}

/-- The `.addr` property of each node class (`SequenceNode.addr` is the
first child's address, `CodeNode.addr` delegates to the wrapped node,
`LoopNode.addr` falls back to the body sequence). -/
def addrOf : PNode α → Option Addr
  | .block a _ => some a
  | .multi a _ => some a
  | .regionN a => some a
  | .seqN [] => none
  | .seqN (n :: _) => addrOf n
  | .codeN n _ => addrOf n
  | .condN a _ _ _ _ => some a
  | .loopN _ _ _ (some a) => some a
  | .loopN _ _ [] none => none
  | .loopN _ _ (n :: _) none => addrOf n
  | .breakN a _ => some a
  | .condBreakN a _ _ => some a

end PNode

/-
Source `_get_last_statement` (lines 1041-1073) together with its helpers
on node lists: `getLastOfList` performs the `nodes[-1]` recursion shared by
SequenceNode and LoopNode (an empty SequenceNode falls through to
`return None`), and `multiScan` performs the MultiNode scan over
`reversed(block.nodes)` that swallows `EmptyBlockNotice` and falls through
to `return None` when every member is empty (the outer `some`/`none` of its
result distinguishes an answer from that fall-through).  BreakNode and
GraphRegion reach the final `raise NotImplementedError`.
-/
mutual

/-- Source `_get_last_statement` on a single node. -/
def getLastStatement {α : Type} : PNode α → Except PyErr (Option Stmt)
  | .seqN ns => getLastOfList ns
  | .codeN n _ => getLastStatement n
  | .block _ stmts =>
      match stmts.getLast? with
      | none => .error .emptyBlockErr
      | some s => .ok (some s)
  | .multi _ ns =>
      match multiScan ns with
      | .error e => .error e
      | .ok none => .ok none
      | .ok (some v) => .ok v
  | .loopN _ _ body _ => getLastOfList body
  | .condBreakN _ _ _ => .ok none
  | .condN _ _ _ _ _ => .ok none
  | .breakN _ _ => .error .notImplementedErr
  | .regionN _ => .error .notImplementedErr

/-- The `nodes[-1]` recursion of `_get_last_statement` for SequenceNode. -/
def getLastOfList {α : Type} : List (PNode α) → Except PyErr (Option Stmt)
  | [] => .ok none
  | [n] => getLastStatement n
  | _ :: n :: rest => getLastOfList (n :: rest)

/-- The MultiNode scan of `_get_last_statement` over `reversed(block.nodes)`. -/
def multiScan {α : Type} : List (PNode α) → Except PyErr (Option (Option Stmt))
  | [] => .ok none
  | n :: rest =>
      match multiScan rest with
      | .ok none =>
          match getLastStatement n with
          | .error .emptyBlockErr => .ok none
          | .error e => .error e
          | .ok v => .ok (some v)
      | r => r

end

/-
Source `_remove_last_statement` (lines 1075-1093): drop the trailing
statement in place; `removeLastInList` rewrites the `nodes[-1]` member that
SequenceNode and MultiNode recurse into (an empty node list is left
untouched, as in the source).
-/
mutual

/-- Source `_remove_last_statement` on a single node. -/
def removeLastStatement {α : Type} : PNode α → Except PyErr (PNode α)
  | .codeN n rc =>
      match removeLastStatement n with
      | .ok n1 => .ok (.codeN n1 rc)
      | .error e => .error e
  | .block a stmts =>
      match stmts with
      | [] => .error .indexErr
      | _ :: _ => .ok (.block a stmts.dropLast)
  | .multi a ns =>
      match removeLastInList ns with
      | .ok ns1 => .ok (.multi a ns1)
      | .error e => .error e
  | .seqN ns =>
      match removeLastInList ns with
      | .ok ns1 => .ok (.seqN ns1)
      | .error e => .error e
  | _ => .error .notImplementedErr

/-- The `nodes[-1]` in-place rewrite of `_remove_last_statement`. -/
def removeLastInList {α : Type} : List (PNode α) → Except PyErr (List (PNode α))
  | [] => .ok []
  | [n] =>
      match removeLastStatement n with
      | .ok n1 => .ok [n1]
      | .error e => .error e
  | n :: m :: rest =>
      match removeLastInList (m :: rest) with
      | .ok tl => .ok (n :: tl)
      | .error e => .error e

end

/-- The CodeNode unwrapping idiom `if type(node) is CodeNode: node = node.node`. -/
def unwrapCode {α : Type} : PNode α → PNode α
  | .codeN n _ => n
  | n => n

/-- Discriminator for ConditionalBreakNode. -/
def isCondBreak {α : Type} : PNode α → Bool
  | .condBreakN _ _ _ => true
  | _ => false

/-
Reaching-condition recovery, `_recover_reaching_conditions` (lines 639-678).
Nodes are identified by their key (an `Int`); the quasi-topological visit
order, the predecessor lists (in graph insertion order) and the
already-computed edge conditions are inputs; `simpf` is the external
`_simplify_condition` the source applies to every stored condition.
-/

/-- The dictionary `reaching_conditions`: assignment prepends, lookup reads
the newest binding. -/
def lookupRC (m : List (Int × CExpr)) (k : Int) : Option CExpr :=
  (m.find? (fun p => p.1 == k)).map (fun p => p.2)

/-- One predecessor step of the fold in lines 663-671: the first predecessor
contributes `And(pred_condition, edge_condition)`, every further predecessor
wraps `Or(And(pred_condition, edge_condition), acc)` around the accumulator.
Missing dictionary entries default to `claripy.true` as in the `.get` calls. -/
def rcFoldStep (m : List (Int × CExpr)) (ec : Int → Int → CExpr) (n : Int)
    (acc : Option CExpr) (p : Int) : Option CExpr :=
  let predCondition := (lookupRC m p).getD .ctrue
  let edgeCondition := ec p n
  match acc with
  | none => some (.cand predCondition edgeCondition)
  | some r => some (.cor (.cand predCondition edgeCondition) r)

/-- The whole predecessor fold for one node. -/
def rcFold (m : List (Int × CExpr)) (ec : Int → Int → CExpr) (n : Int)
    (ps : List Int) : Option CExpr :=
  ps.foldl (rcFoldStep m ec n) none

/-- Processing of a single node in the visit loop of lines 655-674: the head
gets `claripy.true`, any other node the predecessor fold; a node whose fold
stays `None` (no predecessors) is not stored; every stored condition goes
through `_simplify_condition`. -/
def rcStep (simpf : CExpr → CExpr) (head : Int) (preds : Int → List Int)
    (ec : Int → Int → CExpr) (m : List (Int × CExpr)) (n : Int) :
    List (Int × CExpr) :=
  if n = head then (n, simpf .ctrue) :: m
  else
    match rcFold m ec n (preds n) with
    | none => m
    | some r => (n, simpf r) :: m

/-- Source `_recover_reaching_conditions`: visit every node of the
quasi-topological order in turn. -/
def recoverReachingConditions (simpf : CExpr → CExpr) (head : Int)
    (preds : Int → List Int) (ec : Int → Int → CExpr) (order : List Int) :
    List (Int × CExpr) :=
  order.foldl (rcStep simpf head preds ec) []

/-
Edge conditions, `_extract_predicate` (lines 1118-1144), and the loop-body
conversion steps of `_to_loop_body_sequence` (lines 538-637).
-/

/-- Source `_extract_predicate`: the condition attached to the edge from
`srcBlock` to `dstBlock`.  A ConditionalBreakNode source contributes its own
(claripy) condition, a GraphRegion `claripy.true`; otherwise the last
statement decides: `None` or a `Jump` or any unrecognized statement kind
gives `claripy.true`, a `ConditionalJump` gives the translated branch
condition or its negation depending on which arm targets the destination.
Exceptions from `_get_last_statement` (in particular `EmptyBlockNotice` on
an empty block) propagate: there is no handler in the source. -/
def extractPredicate (m : CondMap) (srcBlock dstBlock : PNode CExpr) :
    Except PyErr (CExpr × CondMap) :=
  match srcBlock with
  | .condBreakN _ boolVar target =>
      if dstBlock.addrOf = some target then .ok (boolVar, m)
      else .ok (.cnot boolVar, m)
  | .regionN _ => .ok (.ctrue, m)
  | _ => do
    let lastStmt ← getLastStatement srcBlock
    match lastStmt with
    | none => .ok (.ctrue, m)
    | some (.jump _ _) => .ok (.ctrue, m)
    | some (.condJump c tt _ _) => do
        let (boolVar, m1) ← boolVariableFromAilCondition m c
        if dstBlock.addrOf = some tt then .ok (boolVar, m1)
        else .ok (.cnot boolVar, m1)
    | some (.assign _) => .ok (.ctrue, m)

/-- Source `_extract_jump_targets` (lines 1146-1166). -/
def extractJumpTargets : Option Stmt → List Addr
  | some (.jump target _) => [target]
  | some (.condJump _ tt ft _) => [tt, ft]
  | _ => []

/-- The per-node exit conversion inside the traversal loop of
`_to_loop_body_sequence` (lines 561-605): when the node's trailing transfer
targets a loop successor, strip it and produce a Break or ConditionalBreak.
Returns the optional replacement node, the (possibly shrunk) original node
and the updated condition-variable mapping.  `loopNodeAddrs` is the set
`loop_nodes` of line 541 (the addresses of every node of the region graph),
`loopSuccessorAddrs` the set of line 548. -/
def convertLoopExitStep (m : CondMap) (loopSuccessorAddrs loopNodeAddrs : List Addr)
    (node : PNode CExpr) :
    Except PyErr (Option (PNode CExpr) × PNode CExpr × CondMap) := do
  let lastStmt ← getLastStatement node
  let realSuccessorAddrs := extractJumpTargets lastStmt
  if realSuccessorAddrs.any (fun a => loopSuccessorAddrs.contains a) then
    match lastStmt with
    | some (.jump target insAddr) => do
        let node1 ← removeLastStatement node
        .ok (some (.breakN insAddr target), node1, m)
    | some (.condJump c tt ft insAddr) => do
        let (cond, target) ←
          if loopSuccessorAddrs.contains tt && loopNodeAddrs.contains ft then
            pure (c, tt)
          else if loopSuccessorAddrs.contains ft && loopNodeAddrs.contains tt then
            pure (AilExpr.unop "Not" c, ft)
          else
            Except.error PyErr.genericExc
        let node1 ← removeLastStatement node
        let (boolVar, m1) ← boolVariableFromAilCondition m cond
        .ok (some (.condBreakN insAddr boolVar target), node1, m1)
    | _ => .ok (none, node, m)
  else .ok (none, node, m)

/-- The post-structuring cleanup of `_to_loop_body_sequence`
(lines 626-633): if the structured body ends in an unconditional `Jump`, it
must target the loop head (anything else is a fatal inconsistency) and is
then removed. -/
def dropTrailingJumpToHead {α : Type} (headAddr : Addr) (seq : PNode α) :
    Except PyErr (PNode α) := do
  let lastStmt ← getLastStatement seq
  match lastStmt with
  | some (.jump target _) =>
      if target ≠ headAddr then Except.error PyErr.genericExc
      else removeLastStatement seq
  | _ => .ok seq

/-
Loop shape refinement, `_refine_loop` / `_refine_loop_while` /
`_refine_loop_dowhile` (lines 488-536).  At this phase the conditions held
by the body's nodes are ailment expressions (the loop body was produced by a
recursive Structurer call that already ran `_remove_claripy_bool_asts`).
-/

/-- A LoopNode as handled by the refinement functions: `body` is
`sequence_node.nodes`, `addrO` the optional `_addr` field. -/
structure LoopS where
  sort : LoopSort
  cond : Option AilExpr
  body : List (PNode AilExpr)
  addrO : Option Addr

/-- The `LoopNode.addr` property: `_addr`, or the body sequence's address. -/
def LoopS.addrProp (l : LoopS) : Option Addr :=
  match l.addrO with
  | some a => some a
  | none => l.body.head?.bind PNode.addrOf

/-- Source `_refine_loop_while` (lines 504-520): on an endless loop
(`sort == 'while'` with no condition) whose first body node — unwrapped from
a CodeNode if necessary — is a ConditionalBreakNode, peel that node off and
produce `while (!cond)`.  `nodes[0]` on an empty body raises IndexError. -/
def refineLoopWhileStep (l : LoopS) : Except PyErr (Bool × LoopS) :=
  if l.sort = .whileS ∧ l.cond = none then
    match l.body with
    | [] => .error .indexErr
    | firstNode :: rest =>
        match unwrapCode firstNode with
        | .condBreakN _ c _ =>
            .ok (true, ⟨.whileS, some (negateCond c), rest, l.addrProp⟩)
        | _ => .ok (false, l)
  else .ok (false, l)

/-- Source `_refine_loop_dowhile` (lines 522-536): on an endless loop whose
last body node is (directly) a ConditionalBreakNode, peel it off and produce
`do ... while (!cond)`; the new LoopNode is built without an address. -/
def refineLoopDoWhileStep (l : LoopS) : Except PyErr (Bool × LoopS) :=
  if l.sort = .whileS ∧ l.cond = none then
    match l.body.getLast? with
    | none => .error .indexErr
    | some lastNode =>
        match lastNode with
        | .condBreakN _ c _ =>
            .ok (true, ⟨.doWhileS, some (negateCond c), l.body.dropLast, none⟩)
        | _ => .ok (false, l)
  else .ok (false, l)

/-- `1` while the loop is still an endless loop (the only state in which
either refinement guard can pass). -/
def endlessFlag (l : LoopS) : Nat :=
  if l.sort = .whileS ∧ l.cond = none then 1 else 0

theorem refineLoopWhileStep_true {l l1 : LoopS}
    (h : refineLoopWhileStep l = .ok (true, l1)) :
    endlessFlag l = 1 ∧ endlessFlag l1 = 0 ∧
      l1.body.length + 1 = l.body.length := by
  unfold refineLoopWhileStep at h
  split at h
  case isTrue hguard =>
    split at h
    · simp at h
    · split at h
      · simp only [Except.ok.injEq, Prod.mk.injEq, true_and] at h
        subst h
        refine ⟨by simp [endlessFlag, hguard], by simp [endlessFlag], by simp_all⟩
      · simp at h
  case isFalse => simp at h

theorem refineLoopWhileStep_false {l l1 : LoopS}
    (h : refineLoopWhileStep l = .ok (false, l1)) : l1 = l := by
  unfold refineLoopWhileStep at h
  split at h
  · split at h
    · simp at h
    · split at h
      · simp at h
      · simpa using h.symm
  · simpa using h.symm

theorem refineLoopDoWhileStep_true {l l1 : LoopS}
    (h : refineLoopDoWhileStep l = .ok (true, l1)) :
    endlessFlag l = 1 ∧ endlessFlag l1 = 0 ∧
      l1.body.length + 1 = l.body.length := by
  unfold refineLoopDoWhileStep at h
  split at h
  case isTrue hguard =>
    split at h
    · simp at h
    · split at h
      · simp only [Except.ok.injEq, Prod.mk.injEq, true_and] at h
        subst h
        rename_i lastNode hlast a c t heq
        have hne : l.body ≠ [] := by
          intro hnil
          rw [hnil] at heq
          simp at heq
        have hpos : 0 < l.body.length := List.length_pos.mpr hne
        refine ⟨by simp [endlessFlag, hguard], by simp [endlessFlag], ?_⟩
        simp only [List.length_dropLast]
        omega
      · simp at h
  case isFalse => simp at h

theorem refineLoopDoWhileStep_false {l l1 : LoopS}
    (h : refineLoopDoWhileStep l = .ok (false, l1)) : l1 = l := by
  unfold refineLoopDoWhileStep at h
  split at h
  · split at h
    · simp at h
    · split at h
      · simp at h
      · simpa using h.symm
  · simpa using h.symm

/-- Source `_refine_loop` (lines 488-502), instrumented with the number of
productive refinement steps (peels).  The source loops `while True`,
retrying from the top after every productive step; each productive step
turns the endless loop into a conditioned one, after which neither guard can
pass again, which is exactly the well-foundedness argument
(`endlessFlag` drops from 1 to 0). -/
def refineLoopCountGo (k : Nat) (l : LoopS) : Except PyErr (Nat × LoopS) :=
  match h1 : refineLoopWhileStep l with
  | .error e => .error e
  | .ok (true, l1) => refineLoopCountGo (k + 1) l1
  | .ok (false, l1) =>
      match h2 : refineLoopDoWhileStep l1 with
      | .error e => .error e
      | .ok (true, l2) => refineLoopCountGo (k + 1) l2
      | .ok (false, l2) => .ok (k, l2)
termination_by endlessFlag l
decreasing_by
  · obtain ⟨ha, hb, -⟩ := refineLoopWhileStep_true h1
    omega
  · have hl1 := refineLoopWhileStep_false h1
    obtain ⟨ha, hb, -⟩ := refineLoopDoWhileStep_true h2
    subst hl1
    omega

/-- Source `_refine_loop`. -/
def refineLoop (l : LoopS) : Except PyErr LoopS :=
  (refineLoopCountGo 0 l).map (fun p => p.2)

/-
Conditional-break merging, `_merge_conditional_breaks` (lines 944-979).
The accumulator `acc` holds the `new_nodes` list in reverse (its head is the
most recently appended node); `prev` is `seq.nodes[i-1]`, the ORIGINAL
previous input node — the source reads the previous node from `seq.nodes`,
not from `new_nodes`.
-/

/-- The ConditionalBreakNode branch of one `_merge_conditional_breaks`
iteration: if the original previous node (unwrapped from a CodeNode) is also
a ConditionalBreakNode, pop the previously appended node and push a merged
break whose condition is `_simplify_condition(Or(cond, prev.cond))`; else
push the (unwrapped) break as is. -/
def mergeCBStepCB (simpf : CExpr → CExpr) (prev : Option (PNode CExpr))
    (acc : List (PNode CExpr)) (a : Addr) (c : CExpr) (t : Addr) :
    List (PNode CExpr) :=
  match prev with
  | some p =>
      match unwrapCode p with
      | .condBreakN _ pc _ => .condBreakN a (simpf (.cor c pc)) t :: acc.tail
      | _ => .condBreakN a c t :: acc
  | none => .condBreakN a c t :: acc

/-- The iteration of `_merge_conditional_breaks`: unwrap a CodeNode, recurse
into a SequenceNode, merge a ConditionalBreakNode with a directly preceding
one, append everything else unchanged. -/
def mergeCBAux (simpf : CExpr → CExpr) (prev : Option (PNode CExpr))
    (acc : List (PNode CExpr)) : List (PNode CExpr) → List (PNode CExpr)
  | [] => acc.reverse
  | n :: rest =>
      match n with
      | .codeN (.seqN children) rc =>
          mergeCBAux simpf (some (.codeN (.seqN children) rc))
            (.seqN (mergeCBAux simpf none [] children) :: acc) rest
      | .seqN children =>
          mergeCBAux simpf (some (.seqN children))
            (.seqN (mergeCBAux simpf none [] children) :: acc) rest
      | .codeN (.condBreakN a c t) rc =>
          mergeCBAux simpf (some (.codeN (.condBreakN a c t) rc))
            (mergeCBStepCB simpf prev acc a c t) rest
      | .condBreakN a c t =>
          mergeCBAux simpf (some (.condBreakN a c t))
            (mergeCBStepCB simpf prev acc a c t) rest
      | .codeN inner rc =>
          mergeCBAux simpf (some (.codeN inner rc)) (inner :: acc) rest
      | _ => mergeCBAux simpf (some n) (n :: acc) rest

/-- Source `_merge_conditional_breaks`, on the node list of the sequence. -/
def mergeConditionalBreaks (simpf : CExpr → CExpr) (ns : List (PNode CExpr)) :
    List (PNode CExpr) :=
  mergeCBAux simpf none [] ns

/-- Whether the most recently appended node (the head of the reversed
accumulator) is a ConditionalBreakNode. -/
def headIsCB : List (PNode CExpr) → Bool
  | [] => false
  | n :: _ => isCondBreak n

/-- Whether the original previous input node, unwrapped from a CodeNode, is
a ConditionalBreakNode. -/
def prevIsCB : Option (PNode CExpr) → Bool
  | none => false
  | some p => isCondBreak (unwrapCode p)

/-
The condition-variable mapping across the recursive loop-body structuring
call (`_to_loop_body_sequence`, lines 621-624).
-/

/-- `self._condition_mapping.copy()` at line 623: a fresh dict holding the
same entries. -/
def copyMap (m : CondMap) : CondMap := m

/-- The work the recursive Structurer call performs against its
condition-variable mapping: during `_recover_reaching_conditions` it runs
`_bool_variable_from_ail_condition` over the branch conditions of the loop
body's region, threading its own mapping through. -/
def structureRegionConditions (m : CondMap) (conds : List AilExpr) :
    Except PyErr CondMap :=
  conds.foldlM
    (fun acc c => (boolVariableFromAilCondition acc c).map (fun p => p.2)) m

/-- Lines 621-624 of `_to_loop_body_sequence`:
`Structurer(region, condition_mapping=self._condition_mapping.copy())` — the
sub-structurer receives a COPY of the enclosing call's mapping and mutates
only that copy; the enclosing call keeps using its own mapping object, which
the sub-call never writes back to.  The result pairs the enclosing call's
mapping after the call with the sub-call's final mapping. -/
def loopBodyRecursiveStructure (m : CondMap) (bodyConds : List AilExpr) :
    Except PyErr (CondMap × CondMap) := do
  let innerFinal ← structureRegionConditions (copyMap m) bodyConds
  pure (m, innerFinal)

/-- The claripy variable produced for an ailment condition (first component
of `_bool_variable_from_ail_condition`). -/
def boolVarResult (m : CondMap) (c : AilExpr) : Except PyErr CExpr :=
  (boolVariableFromAilCondition m c).map (fun p => p.1)

/-
Cyclic-region successor handling: `_analyze_cyclic` (lines 281-305),
`_find_loop_nodes_and_successors` (lines 339-400) and
`_refine_loop_successors` (lines 402-477).

The region graph is a networkx-style digraph over node identifiers: node
and edge lists keep insertion order (networkx adjacency iterates in
insertion order, which drives the BFS child assignment), `blocks` holds the
statement list of each ailment.Block node (the fresh ConditionNode created
during refinement has no entry), `addrs` the `.addr` of every node (the
ConditionNode is created with address `-1`).
-/

/-- A region graph as walked by the cyclic-structuring code. -/
structure DG where
  nodeIds : List Nat
  edges : List (Nat × Nat)
  blocks : List (Nat × List Stmt)
  addrs : List (Nat × Addr)
  head : Nat
  deriving DecidableEq, Repr

/-- Statement list of a block node. -/
def lookupBlocks (g : DG) (u : Nat) : Option (List Stmt) :=
  (g.blocks.find? (fun p => p.1 == u)).map (fun p => p.2)

/-- The `.addr` of a graph node. -/
def addrOfN (g : DG) (u : Nat) : Addr :=
  ((g.addrs.find? (fun p => p.1 == u)).map (fun p => p.2)).getD 0

/-- Successors in adjacency (insertion) order. -/
def successorsD (g : DG) (u : Nat) : List Nat :=
  (g.edges.filter (fun e => e.1 == u)).map (fun e => e.2)

/-- Predecessors in insertion order. -/
def predecessorsD (g : DG) (u : Nat) : List Nat :=
  (g.edges.filter (fun e => e.2 == u)).map (fun e => e.1)

/-- networkx `add_node`: appends an unknown node. -/
def addNodeD (g : DG) (u : Nat) : DG :=
  if g.nodeIds.contains u then g else { g with nodeIds := g.nodeIds ++ [u] }

/-- networkx `add_edge`: registers both endpoints, appends a new edge. -/
def addEdgeD (g : DG) (u v : Nat) : DG :=
  let g1 := addNodeD (addNodeD g u) v
  if g1.edges.contains (u, v) then g1
  else { g1 with edges := g1.edges ++ [(u, v)] }

/-- networkx `remove_edge`. -/
def removeEdgeD (g : DG) (u v : Nat) : DG :=
  { g with edges := g.edges.filter (fun e => e ≠ (u, v)) }

/-- Replace the statement list of a block node
(`_remove_last_statement` + `_append_statement` install the rewritten list
in place). -/
def setBlockD (g : DG) (u : Nat) (ss : List Stmt) : DG :=
  { g with blocks := (u, ss) :: g.blocks }

/-- One frontier expansion of the reachability closure. -/
def reachExpand (g : DG) (vs : List Nat) : List Nat :=
  vs.foldl
    (fun acc u =>
      (successorsD g u).foldl
        (fun acc2 v => if acc2.contains v then acc2 else acc2 ++ [v]) acc)
    vs

/-- Iterated expansion; `g.nodeIds.length` rounds reach a fixpoint. -/
def reachIter (g : DG) : Nat → List Nat → List Nat
  | 0, vs => vs
  | k + 1, vs => reachIter g k (reachExpand g vs)

/-- All nodes reachable from `u` (including `u`). -/
def reachableFrom (g : DG) (u : Nat) : List Nat :=
  reachIter g g.nodeIds.length [u]

/-- Reachability test. -/
def reaches (g : DG) (u v : Nat) : Bool :=
  (reachableFrom g u).contains v

/-- The strongly connected component containing the region head (lines
345-353): the nodes mutually reachable with the head. -/
def sccOfHead (g : DG) : List Nat :=
  g.nodeIds.filter (fun m => reaches g g.head m && reaches g m g.head)

/-- One round of the loop-extension `while True` of lines 356-371: the first
successor of a loop member, outside the loop, all of whose predecessors are
inside the loop. -/
def extendLoopOnce (g : DG) (loopNs : List Nat) : Option Nat :=
  loopNs.findSome? (fun ln =>
    (successorsD g ln).find? (fun succ =>
      !loopNs.contains succ &&
        (predecessorsD g succ).all (fun p => loopNs.contains p)))

/-- The loop-extension iteration; every productive round adds one node, so
`g.nodeIds.length` rounds reach the fixpoint. -/
def extendLoopIter (g : DG) : Nat → List Nat → List Nat
  | 0, loopNs => loopNs
  | k + 1, loopNs =>
      match extendLoopOnce g loopNs with
      | none => loopNs
      | some s => extendLoopIter g k (loopNs ++ [s])

/-- The loop-membership computation of `_find_loop_nodes_and_successors`. -/
def loopNodesOf (g : DG) : List Nat :=
  extendLoopIter g g.nodeIds.length (sccOfHead g)

/-- `networkx.bfs_successors(graph, head)`: breadth-first traversal yielding
each dequeued node with its children in the BFS TREE (a node discovered
through one parent is never reported as a child of another). -/
def bfsTreeAux (g : DG) :
    Nat → List Nat → List Nat → List (Nat × List Nat) → List (Nat × List Nat)
  | 0, _, _, acc => acc
  | fuel + 1, queue, visited, acc =>
      match queue with
      | [] => acc
      | u :: qrest =>
          let children := (successorsD g u).filter (fun v => !visited.contains v)
          bfsTreeAux g fuel (qrest ++ children) (visited ++ children)
            (acc ++ [(u, children)])

/-- BFS-tree successors from a source node. -/
def bfsTreeSuccessors (g : DG) (src : Nat) : List (Nat × List Nat) :=
  bfsTreeAux g (g.nodeIds.length + 1) [src] [src] []

/-- Source `_find_loop_nodes_and_successors` (lines 339-400): loop nodes by
SCC growth, then loop successors as the nodes outside the loop subgraph that
appear as BFS-tree children of a node whose address is a loop-node address.
The parent-region climb of lines 386-398 runs only when a parent map was
supplied and an enclosing region exists; we model a region without parents,
for which that `while` loop does not run and the successor set stays as
computed here.  Successor collection keeps discovery order (Python set
insertion on ints). -/
def findLoopNodesAndSuccessorsD (g : DG) : List Nat × List Nat :=
  let loopNs := loopNodesOf g
  let loopAddrs := loopNs.map (addrOfN g)
  let pairs := bfsTreeSuccessors g g.head
  let succs := pairs.foldl
    (fun acc p =>
      if loopAddrs.contains (addrOfN g p.1) then
        p.2.foldl
          (fun acc2 s =>
            if loopNs.contains s || acc2.contains s then acc2 else acc2 ++ [s])
          acc
      else acc)
    []
  (loopNs, succs)

/-- Lines 444-469 of `_refine_loop_successors`: the last statement of a
predecessor of a to-be-detached successor must be a ConditionalJump; the arm
that targeted the successor is redirected to the sentinel constant `-1`
(an empty block raises EmptyBlockNotice through `_get_last_statement`, a
block ending in anything else raises NotImplementedError, and a jump whose
arms match neither side raises the bare Exception of line 465). -/
def rewriteCondJumpArm (ss : List Stmt) (succAddr : Addr) :
    Except PyErr (List Stmt) :=
  match ss.getLast? with
  | none => .error .emptyBlockErr
  | some (.condJump c tt ft insAddr) =>
      if tt = succAddr then .ok (ss.dropLast ++ [.condJump c (-1) ft insAddr])
      else if ft = succAddr then .ok (ss.dropLast ++ [.condJump c tt (-1) insAddr])
      else .error .genericExc
  | some _ => .error .notImplementedErr

/-- Source `_refine_loop_successors` (lines 402-477), graph effect.  With at
most one successor it returns immediately.  Otherwise a fresh ConditionNode
(`condId`, address `-1`) chains the successors (its stored conditions come
from `_recover_reaching_conditions`, which on these regions succeeds and
does not modify the graph, so only the node itself is modeled); then for
every in-edge of every successor: temporarily detach the predecessor's own
in-edges, drop the edge into the successor, rewrite the predecessor's
trailing ConditionalJump arm to the sentinel, re-attach the detached edges
and connect the predecessor to the ConditionNode. -/
def refineLoopSuccessorsD (g0 : DG) (succs : List Nat) (condId : Nat) :
    Except PyErr DG :=
  if succs.length ≤ 1 then .ok g0
  else
    let gInit : DG := { g0 with addrs := (condId, -1) :: g0.addrs }
    succs.foldlM
      (fun g succ =>
        (g.edges.filter (fun e => e.2 == succ)).foldlM
          (fun g1 e =>
            let src := e.1
            let removedEdges := g1.edges.filter (fun e2 => e2.2 == src)
            let g2 := removedEdges.foldl
              (fun gg e2 => removeEdgeD gg e2.1 e2.2) g1
            let g3 := removeEdgeD g2 src succ
            match lookupBlocks g3 src with
            | none => .error .notImplementedErr
            | some ss => do
                let ss1 ← rewriteCondJumpArm ss (addrOfN g3 succ)
                let g4 := setBlockD g3 src ss1
                let g5 := removedEdges.foldl
                  (fun gg e2 => addEdgeD gg e2.1 e2.2) g4
                .ok (addEdgeD g5 src condId))
          g)
      gInit

/-- Lines 288-295 of `_analyze_cyclic`: identify loop nodes and successors,
refine when more than one successor was found, re-identify, and check the
`assert len(successors) <= 1` guarding loop-body construction. -/
def analyzeCyclicSuccessorStage (g : DG) (condId : Nat) :
    Except PyErr (DG × List Nat × List Nat) :=
  if (findLoopNodesAndSuccessorsD g).2.length > 1 then
    match refineLoopSuccessorsD g (findLoopNodesAndSuccessorsD g).2 condId with
    | .error e => .error e
    | .ok gg =>
        if (findLoopNodesAndSuccessorsD gg).2.length ≤ 1 then
          .ok (gg, (findLoopNodesAndSuccessorsD gg).1,
            (findLoopNodesAndSuccessorsD gg).2)
        else .error .assertionFailed
  else
    if (findLoopNodesAndSuccessorsD g).2.length ≤ 1 then
      .ok (g, (findLoopNodesAndSuccessorsD g).1, (findLoopNodesAndSuccessorsD g).2)
    else .error .assertionFailed

/-- A concrete cyclic region with loop `1 -> 2 -> 3 -> 1` (head `1`) and
outside nodes `4, 5, 6, 7`: every block ends in a two-armed ConditionalJump
matching its out-edges; node `7` is adjacent to loop node `3` but is
discovered by the BFS through the outside node `4`, so the first successor
identification reports only `4` and `6`. -/
def exampleRegionG : DG :=
  { nodeIds := [1, 2, 3, 4, 5, 6, 7]
    edges := [(1, 4), (1, 2), (2, 6), (2, 3), (3, 7), (3, 1),
              (4, 5), (4, 7), (5, 4), (5, 6)]
    blocks := [(1, [.condJump (.register 32 1 0) 4 2 100]),
               (2, [.condJump (.register 32 2 0) 6 3 200]),
               (3, [.condJump (.register 32 3 0) 7 1 300]),
               (4, [.condJump (.register 32 4 0) 5 7 400]),
               (5, [.condJump (.register 32 5 0) 4 6 500]),
               (6, [.assign 6]),
               (7, [.assign 7])]
    addrs := [(1, 1), (2, 2), (3, 3), (4, 4), (5, 5), (6, 6), (7, 7)]
    head := 1 }

/-- A two-node self-loop region with no successor at all (the whole region
is the loop). -/
def exampleTinyLoopG : DG :=
  { nodeIds := [1, 2]
    edges := [(1, 2), (2, 1)]
    blocks := [(1, [.jump 2 10]), (2, [.jump 1 20])]
    addrs := [(1, 1), (2, 2)]
    head := 1 }

/-
Helper lemmas about the loop-refinement iteration.
-/

theorem refineLoopWhileStep_notEndless {l : LoopS} (h : endlessFlag l = 0) :
    refineLoopWhileStep l = .ok (false, l) := by
  unfold endlessFlag at h
  unfold refineLoopWhileStep
  split
  · simp_all
  · rfl

theorem refineLoopDoWhileStep_notEndless {l : LoopS} (h : endlessFlag l = 0) :
    refineLoopDoWhileStep l = .ok (false, l) := by
  unfold endlessFlag at h
  unfold refineLoopDoWhileStep
  split
  · simp_all
  · rfl

theorem refineLoopCountGo_none {l : LoopS}
    (hw : refineLoopWhileStep l = .ok (false, l))
    (hd : refineLoopDoWhileStep l = .ok (false, l)) (k : Nat) :
    refineLoopCountGo k l = .ok (k, l) := by
  unfold refineLoopCountGo
  split
  · rename_i e heq
    rw [hw] at heq
    cases heq
  · rename_i l1 heq
    rw [hw] at heq
    simp at heq
  · rename_i l1 heq
    rw [hw] at heq
    replace heq : l = l1 := by simpa using heq
    subst heq
    split
    · rename_i e heq2
      rw [hd] at heq2
      cases heq2
    · rename_i l2 heq2
      rw [hd] at heq2
      simp at heq2
    · rename_i l2 heq2
      rw [hd] at heq2
      replace heq2 : l = l2 := by simpa using heq2
      subst heq2
      rfl

theorem refineLoopCountGo_done {l : LoopS} (h : endlessFlag l = 0) (k : Nat) :
    refineLoopCountGo k l = .ok (k, l) :=
  refineLoopCountGo_none (refineLoopWhileStep_notEndless h)
    (refineLoopDoWhileStep_notEndless h) k

theorem refineLoopCountGo_while_true {l l1 : LoopS}
    (hw : refineLoopWhileStep l = .ok (true, l1)) (k : Nat) :
    refineLoopCountGo k l = .ok (k + 1, l1) := by
  have h0 : endlessFlag l1 = 0 := (refineLoopWhileStep_true hw).2.1
  unfold refineLoopCountGo
  split
  · rename_i e heq
    rw [hw] at heq
    cases heq
  · rename_i l2 heq
    rw [hw] at heq
    replace heq : l1 = l2 := by simpa using heq
    subst heq
    exact refineLoopCountGo_done h0 (k + 1)
  · rename_i l2 heq
    rw [hw] at heq
    simp at heq

theorem refineLoopCountGo_while_error {l : LoopS} {e : PyErr}
    (hw : refineLoopWhileStep l = .error e) (k : Nat) :
    refineLoopCountGo k l = .error e := by
  unfold refineLoopCountGo
  split
  · rename_i e2 heq
    rw [hw] at heq
    replace heq : e = e2 := by simpa using heq
    subst heq
    rfl
  · rename_i l1 heq
    rw [hw] at heq
    simp at heq
  · rename_i l1 heq
    rw [hw] at heq
    simp at heq

theorem refineLoopCountGo_dowhile_true {l l2 : LoopS}
    (hw : refineLoopWhileStep l = .ok (false, l))
    (hd : refineLoopDoWhileStep l = .ok (true, l2)) (k : Nat) :
    refineLoopCountGo k l = .ok (k + 1, l2) := by
  have h0 : endlessFlag l2 = 0 := (refineLoopDoWhileStep_true hd).2.1
  unfold refineLoopCountGo
  split
  · rename_i e heq
    rw [hw] at heq
    cases heq
  · rename_i l1 heq
    rw [hw] at heq
    simp at heq
  · rename_i l1 heq
    rw [hw] at heq
    replace heq : l = l1 := by simpa using heq
    subst heq
    split
    · rename_i e heq2
      rw [hd] at heq2
      cases heq2
    · rename_i l3 heq2
      rw [hd] at heq2
      replace heq2 : l2 = l3 := by simpa using heq2
      subst heq2
      exact refineLoopCountGo_done h0 (k + 1)
    · rename_i l3 heq2
      rw [hd] at heq2
      simp at heq2

theorem isCondBreak_shape {α : Type} (n : PNode α) (h : isCondBreak n = true) :
    ∃ a c t, n = .condBreakN a c t := by
  cases n with
  | condBreakN a c t => exact ⟨a, c, t, rfl⟩
  | block a s => simp [isCondBreak] at h
  | multi a ns => simp [isCondBreak] at h
  | regionN a => simp [isCondBreak] at h
  | seqN ns => simp [isCondBreak] at h
  | codeN n rc => simp [isCondBreak] at h
  | condN a rc c tn fn => simp [isCondBreak] at h
  | loopN s c b ao => simp [isCondBreak] at h
  | breakN a t => simp [isCondBreak] at h

theorem refineLoopWhileStep_fires {l : LoopS} (hsort : l.sort = .whileS)
    (hcond : l.cond = none) {firstNode : PNode AilExpr}
    {rest : List (PNode AilExpr)} (hbody : l.body = firstNode :: rest)
    {a : Addr} {c : AilExpr} {t : Addr}
    (hcb : unwrapCode firstNode = .condBreakN a c t) :
    refineLoopWhileStep l =
      .ok (true, ⟨.whileS, some (negateCond c), rest, l.addrProp⟩) := by
  unfold refineLoopWhileStep
  rw [if_pos (⟨hsort, hcond⟩ : l.sort = .whileS ∧ l.cond = none)]
  split
  · rename_i heq
    rw [hbody] at heq
    cases heq
  · rename_i f r heq
    rw [hbody] at heq
    injection heq with h1 h2
    subst h1
    subst h2
    split
    · rename_i a2 c2 t2 heq2
      rw [hcb] at heq2
      injection heq2 with e1 e2 e3
      subst e2
      rfl
    · rename_i hno
      exact absurd hcb (hno a c t)

theorem refineLoopWhileStep_skip {l : LoopS} (hsort : l.sort = .whileS)
    (hcond : l.cond = none) {firstNode : PNode AilExpr}
    {rest : List (PNode AilExpr)} (hbody : l.body = firstNode :: rest)
    (hncb : isCondBreak (unwrapCode firstNode) = false) :
    refineLoopWhileStep l = .ok (false, l) := by
  unfold refineLoopWhileStep
  rw [if_pos (⟨hsort, hcond⟩ : l.sort = .whileS ∧ l.cond = none)]
  split
  · rename_i heq
    rw [hbody] at heq
    cases heq
  · rename_i f r heq
    rw [hbody] at heq
    injection heq with h1 h2
    subst h1
    subst h2
    split
    · rename_i a2 c2 t2 heq2
      rw [heq2] at hncb
      simp [isCondBreak] at hncb
    · rfl

theorem refineLoopDoWhileStep_fires {l : LoopS} (hsort : l.sort = .whileS)
    (hcond : l.cond = none) {a : Addr} {c : AilExpr} {t : Addr}
    (hlast : l.body.getLast? = some (.condBreakN a c t)) :
    refineLoopDoWhileStep l =
      .ok (true, ⟨.doWhileS, some (negateCond c), l.body.dropLast, none⟩) := by
  unfold refineLoopDoWhileStep
  rw [if_pos (⟨hsort, hcond⟩ : l.sort = .whileS ∧ l.cond = none)]
  split
  · rename_i heq
    rw [hlast] at heq
    cases heq
  · rename_i lastNode heq
    rw [hlast] at heq
    injection heq with h1
    subst h1
    rfl

theorem refineLoopDoWhileStep_skip {l : LoopS} (hsort : l.sort = .whileS)
    (hcond : l.cond = none) {lastNode : PNode AilExpr}
    (hlast : l.body.getLast? = some lastNode)
    (hncb : isCondBreak lastNode = false) :
    refineLoopDoWhileStep l = .ok (false, l) := by
  unfold refineLoopDoWhileStep
  rw [if_pos (⟨hsort, hcond⟩ : l.sort = .whileS ∧ l.cond = none)]
  split
  · rename_i heq
    rw [hlast] at heq
    cases heq
  · rename_i ln heq
    rw [hlast] at heq
    injection heq with h1
    subst h1
    split
    · simp [isCondBreak] at hncb
    · rfl

/-
Claim theorems.
-/

/-- C9 (counterexample): condition negation is NOT involutive on a stacked
double negation — negating `Not (Not x)` twice yields `x`, not the original
expression — and negating a triple negation yields a term of the very shape
`Not (Not x)` the claim says can never be produced. -/
theorem c9_counterexample :
    negateCond (negateCond (AilExpr.unop "Not" (.unop "Not" (.const 0 1)))) ≠
      AilExpr.unop "Not" (.unop "Not" (.const 0 1)) ∧
    isDoubleNot
      (negateCond (AilExpr.unop "Not" (.unop "Not" (.unop "Not" (.const 0 1))))) =
      true := by
  exact ⟨by decide, by decide⟩

/-- C9 (amended): on every expression that is not itself a stacked double
negation `Not (Not x)` — and `_negate_cond` never produces one from such
inputs — negation is involutive and its result is never of the shape
`Not (Not x)`. -/
theorem c9_negation_amended (e : AilExpr) (h : isDoubleNot e = false) :
    negateCond (negateCond e) = e ∧ isDoubleNot (negateCond e) = false := by
  cases e with
  | unop op inner =>
      by_cases hop : op = "Not"
      · subst hop
        cases inner with
        | unop op2 x =>
            by_cases hop2 : op2 = "Not"
            · subst hop2
              simp [isDoubleNot] at h
            · constructor
              · simp [negateCond, hop2]
              · show isDoubleNot (AilExpr.unop op2 x) = false
                cases x <;> simp [isDoubleNot, hop2]
        | load b u => exact ⟨rfl, rfl⟩
        | register b r i => exact ⟨rfl, rfl⟩
        | convert fb tb x => exact ⟨rfl, rfl⟩
        | const v b => exact ⟨rfl, rfl⟩
        | binop op2 x y => exact ⟨rfl, rfl⟩
      · constructor
        · simp [negateCond, hop]
        · simp [negateCond, isDoubleNot, hop]
  | load b u => exact ⟨rfl, rfl⟩
  | register b r i => exact ⟨rfl, rfl⟩
  | convert fb tb x => exact ⟨rfl, rfl⟩
  | const v b => exact ⟨rfl, rfl⟩
  | binop op x y => exact ⟨rfl, rfl⟩

/-- C9 witness: the amended involution theorem applied to the single
negation `Not (Const 0)`. -/
theorem c9_negation_witness :
    isDoubleNot (AilExpr.unop "Not" (.const 0 1)) = false ∧
    (negateCond (negateCond (AilExpr.unop "Not" (.const 0 1))) =
        AilExpr.unop "Not" (.const 0 1) ∧
      isDoubleNot (negateCond (AilExpr.unop "Not" (.const 0 1))) = false) :=
  ⟨by decide, c9_negation_amended (AilExpr.unop "Not" (.const 0 1)) (by decide)⟩

/-- C7 (counterexample): a cyclic region on which multi-successor refinement
followed by re-identification leaves TWO successors (the fresh ConditionNode
and a node hidden from the first identification because the BFS tree
discovered it through an outside parent), so the assertion
`len(successors) <= 1` fails and structuring aborts. -/
theorem c7_counterexample :
    analyzeCyclicSuccessorStage exampleRegionG 8 = .error .assertionFailed := by
  rfl

/-- C7 (amended): refinement and re-identification do not always leave
exactly one successor; when more than one remains the guarding assertion
fails (aborting structuring with no partial output), so loop-body
construction is only ever entered with at most one successor. -/
theorem c7_assert_guard (g : DG) (condId : Nat)
    (out : DG × List Nat × List Nat)
    (h : analyzeCyclicSuccessorStage g condId = .ok out) :
    out.2.2.length ≤ 1 := by
  unfold analyzeCyclicSuccessorStage at h
  split at h
  · split at h
    · cases h
    · split at h
      · rename_i hle
        cases h
        simpa using hle
      · cases h
  · split at h
    · rename_i hle
      cases h
      simpa using hle
    · cases h

/-- C7 witness: the guard theorem applied to the two-node self-loop region,
which the stage accepts with zero successors. -/
theorem c7_assert_guard_witness :
    analyzeCyclicSuccessorStage exampleTinyLoopG 8 =
      .ok (exampleTinyLoopG, [1, 2], []) ∧
    (((exampleTinyLoopG, [1, 2], ([] : List Nat)) :
        DG × List Nat × List Nat)).2.2.length ≤ 1 :=
  ⟨by rfl,
    c7_assert_guard exampleTinyLoopG 8 (exampleTinyLoopG, [1, 2], []) (by rfl)⟩

/-- C2 (counterexample): an endless loop whose body is EMPTY — producible by
loop-body construction when the lone back-jump block loses its trailing jump
(lines 626-633) and `remove_empty_node` then empties the sequence — does NOT
stay endless under shape refinement: `_refine_loop_while` evaluates
`loop_node.sequence_node.nodes[0]` and raises IndexError, so structuring
aborts instead of returning the endless loop. -/
theorem c2_counterexample :
    refineLoop ⟨.whileS, none, [], none⟩ = .error .indexErr ∧
      refineLoop ⟨.whileS, none, [], none⟩ ≠
        .ok ⟨.whileS, none, ([] : List (PNode AilExpr)), none⟩ := by
  have hw : refineLoopWhileStep ⟨.whileS, none, [], none⟩ =
      .error .indexErr := by rfl
  have hgo := refineLoopCountGo_while_error hw 0
  constructor
  · unfold refineLoop
    rw [hgo]
    rfl
  · unfold refineLoop
    rw [hgo]
    intro h
    exact Except.noConfusion h

/-- C2 (amended): shape refinement of an endless loop: with an EMPTY body it
raises IndexError (aborting structuring); with a nonempty body, a leading
ConditionalBreak (possibly CodeNode-wrapped) is peeled and yields
`while (!X)`; otherwise a trailing ConditionalBreak is peeled and yields
`do-while (!Y)`; otherwise the loop stays endless (returned unchanged). -/
theorem c2_loop_shape_refinement (l : LoopS)
    (hsort : l.sort = .whileS) (hcond : l.cond = none) :
    (l.body = [] → refineLoop l = .error .indexErr)
    ∧ (∀ (firstNode : PNode AilExpr) (rest : List (PNode AilExpr)),
        l.body = firstNode :: rest →
        ∀ lastNode : PNode AilExpr, l.body.getLast? = some lastNode →
        (∀ a c t, unwrapCode firstNode = .condBreakN a c t →
            refineLoop l =
              .ok ⟨.whileS, some (negateCond c), rest, l.addrProp⟩)
        ∧ (isCondBreak (unwrapCode firstNode) = false →
            (∀ a c t, lastNode = .condBreakN a c t →
                refineLoop l =
                  .ok ⟨.doWhileS, some (negateCond c), l.body.dropLast, none⟩)
            ∧ (isCondBreak lastNode = false → refineLoop l = .ok l))) := by
  constructor
  · intro hemp
    have hw : refineLoopWhileStep l = .error .indexErr := by
      unfold refineLoopWhileStep
      rw [if_pos (⟨hsort, hcond⟩ : l.sort = .whileS ∧ l.cond = none), hemp]
    unfold refineLoop
    rw [refineLoopCountGo_while_error hw 0]
    rfl
  · intro firstNode rest hbody lastNode hlast
    refine ⟨?_, ?_⟩
    · intro a c t hcb
      have hw := refineLoopWhileStep_fires hsort hcond hbody hcb
      unfold refineLoop
      rw [refineLoopCountGo_while_true hw 0]
      rfl
    · intro hncb
      have hw := refineLoopWhileStep_skip hsort hcond hbody hncb
      refine ⟨?_, ?_⟩
      · intro a c t hcbl
        subst hcbl
        have hd := refineLoopDoWhileStep_fires hsort hcond hlast
        unfold refineLoop
        rw [refineLoopCountGo_dowhile_true hw hd 0]
        rfl
      · intro hncbl
        have hd := refineLoopDoWhileStep_skip hsort hcond hlast hncbl
        unfold refineLoop
        rw [refineLoopCountGo_none hw hd 0]
        rfl

/-- C2 witness: the refinement theorem applied to an endless loop whose body
starts with a ConditionalBreak on a register condition. -/
theorem c2_loop_shape_refinement_witness :
    refineLoop
        ⟨.whileS, none,
          [.condBreakN 5 (.register 32 9 0) 6, .block 7 [.assign 0]], some 1⟩ =
      .ok ⟨.whileS, some (.unop "Not" (.register 32 9 0)),
        [.block 7 [.assign 0]], some 1⟩ :=
  (((c2_loop_shape_refinement
        ⟨.whileS, none,
          [.condBreakN 5 (.register 32 9 0) 6, .block 7 [.assign 0]], some 1⟩
        rfl rfl).2
      (.condBreakN 5 (.register 32 9 0) 6) [.block 7 [.assign 0]] rfl
      (.block 7 [.assign 0]) rfl).1) 5 (.register 32 9 0) 6 rfl

/-- C10: each productive refinement step removes exactly one body node and
fires only on a still-endless loop, and on any loop with a nonempty body the
refinement loop terminates after at most `n` peels, where `n` is the number
of body children (with one peel the loop stops being endless, so in fact at
most one peel ever happens). -/
theorem c10_refine_loop_termination :
    (∀ l l1 : LoopS, refineLoopWhileStep l = .ok (true, l1) →
        l1.body.length + 1 = l.body.length ∧ endlessFlag l = 1)
    ∧ (∀ l l1 : LoopS, refineLoopDoWhileStep l = .ok (true, l1) →
        l1.body.length + 1 = l.body.length ∧ endlessFlag l = 1)
    ∧ (∀ l : LoopS, l.body ≠ [] →
        ∃ k l1, refineLoopCountGo 0 l = .ok (k, l1) ∧ k ≤ l.body.length) := by
  refine ⟨?_, ?_, ?_⟩
  · intro l l1 h
    obtain ⟨h1, -, h3⟩ := refineLoopWhileStep_true h
    exact ⟨h3, h1⟩
  · intro l l1 h
    obtain ⟨h1, -, h3⟩ := refineLoopDoWhileStep_true h
    exact ⟨h3, h1⟩
  · intro l hne
    by_cases hg : l.sort = .whileS ∧ l.cond = none
    · obtain ⟨hsort, hcond⟩ := hg
      obtain ⟨firstNode, rest, hbody⟩ : ∃ f r, l.body = f :: r := by
        cases hb : l.body with
        | nil => exact absurd hb hne
        | cons f r => exact ⟨f, r, rfl⟩
      have hpos : 1 ≤ l.body.length := by
        rw [hbody]
        simp
      obtain ⟨lastNode, hlast⟩ : ∃ n, l.body.getLast? = some n := by
        rw [hbody]
        cases hgl : (firstNode :: rest).getLast? with
        | none => simp at hgl
        | some n => exact ⟨n, rfl⟩
      by_cases hcb : isCondBreak (unwrapCode firstNode) = true
      · obtain ⟨a, c, t, hu⟩ := isCondBreak_shape _ hcb
        have hw := refineLoopWhileStep_fires hsort hcond hbody hu
        exact ⟨1, _, refineLoopCountGo_while_true hw 0, hpos⟩
      · have hncb : isCondBreak (unwrapCode firstNode) = false := by
          revert hcb
          cases isCondBreak (unwrapCode firstNode) <;> simp
        have hw := refineLoopWhileStep_skip hsort hcond hbody hncb
        by_cases hcbl : isCondBreak lastNode = true
        · obtain ⟨a, c, t, hu2⟩ := isCondBreak_shape _ hcbl
          subst hu2
          have hd := refineLoopDoWhileStep_fires hsort hcond hlast
          exact ⟨1, _, refineLoopCountGo_dowhile_true hw hd 0, hpos⟩
        · have hncbl : isCondBreak lastNode = false := by
            revert hcbl
            cases isCondBreak lastNode <;> simp
          have hd := refineLoopDoWhileStep_skip hsort hcond hlast hncbl
          exact ⟨0, l, refineLoopCountGo_none hw hd 0, by omega⟩
    · have h0 : endlessFlag l = 0 := by
        unfold endlessFlag
        rw [if_neg hg]
      exact ⟨0, l, refineLoopCountGo_done h0 0, by omega⟩

/-- C10 witness: the three parts instantiated on concrete loops — a peel of
a leading break, a peel of a trailing break, and the bound on a one-node
endless loop. -/
theorem c10_refine_loop_termination_witness :
    ((⟨.whileS, some (.unop "Not" (.register 32 9 0)), [], some 5⟩ :
          LoopS).body.length + 1 =
        (⟨.whileS, none, [.condBreakN 5 (.register 32 9 0) 6], none⟩ :
          LoopS).body.length ∧
      endlessFlag ⟨.whileS, none, [.condBreakN 5 (.register 32 9 0) 6], none⟩ = 1)
    ∧ ((⟨.doWhileS, some (.unop "Not" (.register 32 9 0)),
            [.block 7 [.assign 0]], none⟩ : LoopS).body.length + 1 =
        (⟨.whileS, none,
            [.block 7 [.assign 0], .condBreakN 5 (.register 32 9 0) 6], none⟩ :
          LoopS).body.length ∧
      endlessFlag
          ⟨.whileS, none,
            [.block 7 [.assign 0], .condBreakN 5 (.register 32 9 0) 6], none⟩ =
        1)
    ∧ (∃ k l1,
        refineLoopCountGo 0 ⟨.whileS, none, [.block 7 [.assign 0]], none⟩ =
            .ok (k, l1) ∧
          k ≤ (⟨.whileS, none, [.block 7 [.assign 0]], none⟩ : LoopS).body.length) :=
  ⟨c10_refine_loop_termination.1
      ⟨.whileS, none, [.condBreakN 5 (.register 32 9 0) 6], none⟩
      ⟨.whileS, some (.unop "Not" (.register 32 9 0)), [], some 5⟩ (by rfl),
    c10_refine_loop_termination.2.1
      ⟨.whileS, none,
        [.block 7 [.assign 0], .condBreakN 5 (.register 32 9 0) 6], none⟩
      ⟨.doWhileS, some (.unop "Not" (.register 32 9 0)),
        [.block 7 [.assign 0]], none⟩ (by rfl),
    c10_refine_loop_termination.2.2
      ⟨.whileS, none, [.block 7 [.assign 0]], none⟩ (by simp)⟩

theorem rcFold_go (m : List (Int × CExpr)) (ec : Int → Int → CExpr) (n : Int)
    (ps : List Int) (a : CExpr) :
    ∃ e, ps.foldl (rcFoldStep m ec n) (some a) = some e ∧
      ∀ v, evalC v e =
        (evalC v a ||
          ps.any (fun p =>
            evalC v ((lookupRC m p).getD .ctrue) && evalC v (ec p n))) := by
  induction ps generalizing a with
  | nil =>
      refine ⟨a, rfl, fun v => by simp⟩
  | cons q qs ih =>
      obtain ⟨e, he, hv⟩ :=
        ih (.cor (.cand ((lookupRC m q).getD .ctrue) (ec q n)) a)
      refine ⟨e, ?_, ?_⟩
      · rw [List.foldl_cons]
        exact he
      · intro v
        rw [hv v]
        simp [evalC, List.any_cons, Bool.or_assoc, Bool.or_comm, Bool.or_left_comm]

theorem rcFold_some (m : List (Int × CExpr)) (ec : Int → Int → CExpr) (n : Int)
    (ps : List Int) (hne : ps ≠ []) :
    ∃ e, rcFold m ec n ps = some e ∧
      ∀ v, evalC v e =
        ps.any (fun p =>
          evalC v ((lookupRC m p).getD .ctrue) && evalC v (ec p n)) := by
  cases ps with
  | nil => exact absurd rfl hne
  | cons q qs =>
      obtain ⟨e, he, hv⟩ :=
        rcFold_go m ec n qs (.cand ((lookupRC m q).getD .ctrue) (ec q n))
      refine ⟨e, ?_, ?_⟩
      · unfold rcFold
        rw [List.foldl_cons]
        exact he
      · intro v
        rw [hv v]
        simp [evalC, List.any_cons]

theorem rcStep_preserve (simpf : CExpr → CExpr) (head : Int)
    (preds : Int → List Int) (ec : Int → Int → CExpr) (post : List Int) :
    ∀ (m : List (Int × CExpr)) (k : Int), (∀ x ∈ post, x ≠ k) →
      lookupRC (post.foldl (rcStep simpf head preds ec) m) k = lookupRC m k := by
  induction post with
  | nil =>
      intro m k h
      rfl
  | cons x xs ih =>
      intro m k h
      have hxk : x ≠ k := h x (List.mem_cons_self x xs)
      have hxkb : (x == k) = false := by simpa using hxk
      rw [List.foldl_cons,
        ih _ k (fun y hy => h y (List.mem_cons_of_mem x hy))]
      unfold rcStep
      split
      · unfold lookupRC
        rw [List.find?_cons_of_neg]
        simpa using hxkb
      · split
        · rfl
        · unfold lookupRC
          rw [List.find?_cons_of_neg]
          simpa using hxkb

/-- C1: in the reaching-condition recovery, the region head is stored with
the universal-true condition (and keeps it through the remaining visits),
and every visit of a non-head node with a nonempty predecessor list stores
the simplification of an expression that evaluates, under every valuation,
to the OR over all predecessors `p` of
`reaching_condition(p) AND edge_condition(p, n)` (with the source's
`claripy.true` defaults for missing entries). -/
theorem c1_reaching_conditions (simpf : CExpr → CExpr) (head : Int)
    (preds : Int → List Int) (ec : Int → Int → CExpr) (order : List Int)
    (hsimp : simpf .ctrue = .ctrue) (hnodup : order.Nodup) :
    (head ∈ order →
      lookupRC (recoverReachingConditions simpf head preds ec order) head =
        some .ctrue)
    ∧ (∀ (m : List (Int × CExpr)) (n : Int), n ≠ head → preds n ≠ [] →
        ∃ e, rcStep simpf head preds ec m n = (n, simpf e) :: m ∧
          ∀ v, evalC v e =
            (preds n).any (fun p =>
              evalC v ((lookupRC m p).getD .ctrue) && evalC v (ec p n))) := by
  constructor
  · intro hmem
    obtain ⟨pre, post, rfl⟩ := List.append_of_mem hmem
    have hnotin : head ∉ post :=
      (List.nodup_cons.mp (hnodup.of_append_right)).1
    unfold recoverReachingConditions
    rw [List.foldl_append, List.foldl_cons,
      rcStep_preserve simpf head preds ec post _ head
        (fun x hx hxk => hnotin (hxk ▸ hx))]
    unfold rcStep
    rw [if_pos rfl]
    unfold lookupRC
    simp [List.find?, hsimp]
  · intro m n hne hpre
    obtain ⟨e, he, hv⟩ := rcFold_some m ec n (preds n) hpre
    refine ⟨e, ?_, hv⟩
    unfold rcStep
    rw [if_neg hne, he]

/-- C1 witness: the head of a concrete two-node order is mapped to the
universal-true condition. -/
theorem c1_reaching_conditions_witness :
    lookupRC
        (recoverReachingConditions id 0 (fun n => if n = 1 then [0] else [])
          (fun _ _ => CExpr.ctrue) [0, 1]) 0 =
      some CExpr.ctrue :=
  (c1_reaching_conditions id 0 (fun n => if n = 1 then [0] else [])
      (fun _ _ => CExpr.ctrue) [0, 1] rfl (by decide)).1 (by decide)

/-- C4 (counterexample): the edge condition out of an EMPTY source block is
NOT the universal-true value: `_get_last_statement` raises EmptyBlockNotice
and `_extract_predicate` has no handler for it, so the exception
propagates. -/
theorem c4_counterexample :
    extractPredicate [] (.block 0 []) (.block 1 [.assign 0]) =
        .error .emptyBlockErr ∧
      (.error .emptyBlockErr : Except PyErr (CExpr × CondMap)) ≠
        .ok (.ctrue, []) := by
  refine ⟨rfl, ?_⟩
  intro h
  exact Except.noConfusion h

/-- C4 (amended): for an edge `(src, dst)` with `src` neither a
ConditionalBreakNode nor a GraphRegion, the edge condition is universal-true
when the last statement is `None` (all-empty MultiNode, empty SequenceNode,
already-structured conditional node), an unconditional `Jump`, or an
unrecognized statement kind; for a two-way ConditionalJump it is the
translated branch condition when the true arm targets `dst` and its
negation otherwise; and for an EMPTY source block the computation raises the
no-statements condition instead of returning true. -/
theorem c4_edge_condition (m : CondMap) (src dst : PNode CExpr)
    (hncb : isCondBreak src = false) (hnr : ∀ a, src ≠ .regionN a) :
    (getLastStatement src = .ok none →
        extractPredicate m src dst = .ok (.ctrue, m))
    ∧ (∀ t ia, getLastStatement src = .ok (some (.jump t ia)) →
        extractPredicate m src dst = .ok (.ctrue, m))
    ∧ (∀ u, getLastStatement src = .ok (some (.assign u)) →
        extractPredicate m src dst = .ok (.ctrue, m))
    ∧ (∀ c tt ft ia,
        getLastStatement src = .ok (some (.condJump c tt ft ia)) →
          extractPredicate m src dst =
            (boolVariableFromAilCondition m c).map
              (fun p =>
                (if dst.addrOf = some tt then p.1 else .cnot p.1, p.2)))
    ∧ (∀ a, src = .block a [] →
        extractPredicate m src dst = .error .emptyBlockErr) := by
  refine ⟨?_, ?_, ?_, ?_, ?_⟩
  · intro h
    cases src with
    | condBreakN a c t => simp [isCondBreak] at hncb
    | regionN a => exact absurd rfl (hnr a)
    | block a stmts => simp [extractPredicate, h, bind, Except.bind]
    | multi a ns => simp [extractPredicate, h, bind, Except.bind]
    | seqN ns => simp [extractPredicate, h, bind, Except.bind]
    | codeN n rc => simp [extractPredicate, h, bind, Except.bind]
    | condN a rc c tn fn => simp [extractPredicate, h, bind, Except.bind]
    | loopN s c b ao => simp [extractPredicate, h, bind, Except.bind]
    | breakN a t => simp [extractPredicate, h, bind, Except.bind]
  · intro t ia h
    cases src with
    | condBreakN a c t2 => simp [isCondBreak] at hncb
    | regionN a => exact absurd rfl (hnr a)
    | block a stmts => simp [extractPredicate, h, bind, Except.bind]
    | multi a ns => simp [extractPredicate, h, bind, Except.bind]
    | seqN ns => simp [extractPredicate, h, bind, Except.bind]
    | codeN n rc => simp [extractPredicate, h, bind, Except.bind]
    | condN a rc c tn fn => simp [extractPredicate, h, bind, Except.bind]
    | loopN s c b ao => simp [extractPredicate, h, bind, Except.bind]
    | breakN a t2 => simp [extractPredicate, h, bind, Except.bind]
  · intro u h
    cases src with
    | condBreakN a c t => simp [isCondBreak] at hncb
    | regionN a => exact absurd rfl (hnr a)
    | block a stmts => simp [extractPredicate, h, bind, Except.bind]
    | multi a ns => simp [extractPredicate, h, bind, Except.bind]
    | seqN ns => simp [extractPredicate, h, bind, Except.bind]
    | codeN n rc => simp [extractPredicate, h, bind, Except.bind]
    | condN a rc c tn fn => simp [extractPredicate, h, bind, Except.bind]
    | loopN s c b ao => simp [extractPredicate, h, bind, Except.bind]
    | breakN a t => simp [extractPredicate, h, bind, Except.bind]
  · intro c tt ft ia h
    have hred : ∀ src2 : PNode CExpr,
        getLastStatement src2 = .ok (some (.condJump c tt ft ia)) →
        isCondBreak src2 = false → (∀ a, src2 ≠ .regionN a) →
        extractPredicate m src2 dst =
          (boolVariableFromAilCondition m c).map
            (fun p =>
              (if dst.addrOf = some tt then p.1 else .cnot p.1, p.2)) := by
      intro src2 h2 hncb2 hnr2
      cases hb : boolVariableFromAilCondition m c with
      | error e =>
          cases src2 with
          | condBreakN a c2 t2 => simp [isCondBreak] at hncb2
          | regionN a => exact absurd rfl (hnr2 a)
          | block a stmts => simp [extractPredicate, h2, bind, Except.bind, Except.map, hb]
          | multi a ns => simp [extractPredicate, h2, bind, Except.bind, Except.map, hb]
          | seqN ns => simp [extractPredicate, h2, bind, Except.bind, Except.map, hb]
          | codeN n rc => simp [extractPredicate, h2, bind, Except.bind, Except.map, hb]
          | condN a rc c2 tn fn =>
              simp [extractPredicate, h2, bind, Except.bind, Except.map, hb]
          | loopN s c2 b ao => simp [extractPredicate, h2, bind, Except.bind, Except.map, hb]
          | breakN a t2 => simp [extractPredicate, h2, bind, Except.bind, Except.map, hb]
      | ok p =>
          by_cases hdst : dst.addrOf = some tt
          · cases src2 with
            | condBreakN a c2 t2 => simp [isCondBreak] at hncb2
            | regionN a => exact absurd rfl (hnr2 a)
            | block a stmts =>
                simp [extractPredicate, h2, bind, Except.bind, Except.map, hb, hdst]
            | multi a ns =>
                simp [extractPredicate, h2, bind, Except.bind, Except.map, hb, hdst]
            | seqN ns => simp [extractPredicate, h2, bind, Except.bind, Except.map, hb, hdst]
            | codeN n rc =>
                simp [extractPredicate, h2, bind, Except.bind, Except.map, hb, hdst]
            | condN a rc c2 tn fn =>
                simp [extractPredicate, h2, bind, Except.bind, Except.map, hb, hdst]
            | loopN s c2 b ao =>
                simp [extractPredicate, h2, bind, Except.bind, Except.map, hb, hdst]
            | breakN a t2 =>
                simp [extractPredicate, h2, bind, Except.bind, Except.map, hb, hdst]
          · cases src2 with
            | condBreakN a c2 t2 => simp [isCondBreak] at hncb2
            | regionN a => exact absurd rfl (hnr2 a)
            | block a stmts =>
                simp [extractPredicate, h2, bind, Except.bind, Except.map, hb, hdst]
            | multi a ns =>
                simp [extractPredicate, h2, bind, Except.bind, Except.map, hb, hdst]
            | seqN ns => simp [extractPredicate, h2, bind, Except.bind, Except.map, hb, hdst]
            | codeN n rc =>
                simp [extractPredicate, h2, bind, Except.bind, Except.map, hb, hdst]
            | condN a rc c2 tn fn =>
                simp [extractPredicate, h2, bind, Except.bind, Except.map, hb, hdst]
            | loopN s c2 b ao =>
                simp [extractPredicate, h2, bind, Except.bind, Except.map, hb, hdst]
            | breakN a t2 =>
                simp [extractPredicate, h2, bind, Except.bind, Except.map, hb, hdst]
    exact hred src h hncb hnr
  · intro a hsrc
    subst hsrc
    rfl

/-- C4 witness: the amended theorem applied to a block ending in a
conditional jump whose true arm targets the destination. -/
theorem c4_edge_condition_witness :
    extractPredicate []
        (.block 5 [.condJump (.register 32 1 0) 10 20 100])
        (.block 10 [.assign 0]) =
      (boolVariableFromAilCondition [] (.register 32 1 0)).map
        (fun p =>
          (if (PNode.block 10 [.assign 0] : PNode CExpr).addrOf = some 10
            then p.1 else .cnot p.1, p.2)) :=
  (c4_edge_condition [] (.block 5 [.condJump (.register 32 1 0) 10 20 100])
      (.block 10 [.assign 0]) rfl (fun _ h => PNode.noConfusion h)).2.2.2.1
    (.register 32 1 0) 10 20 100 rfl

/-- C5: during loop-body construction, a visited node whose trailing
transfer targets a loop successor is converted: an unconditional `Jump` is
stripped and becomes a Break carrying the exit target; a two-way
`ConditionalJump` is stripped and becomes a ConditionalBreak carrying only
the exiting arm's condition — negated exactly when the false arm is the
exiting one — and the exit target; when neither arm matches the
internal/external partition the conversion raises, aborting structuring. -/
theorem c5_loop_exit_conversion (m : CondMap)
    (loopSuccessorAddrs loopNodeAddrs : List Addr) (node : PNode CExpr)
    (st : Stmt) (hlast : getLastStatement node = .ok (some st))
    (hexit : (extractJumpTargets (some st)).any
        (fun a => loopSuccessorAddrs.contains a) = true) :
    (∀ t ia, st = .jump t ia →
        convertLoopExitStep m loopSuccessorAddrs loopNodeAddrs node =
          (removeLastStatement node).map
            (fun n1 => (some (.breakN ia t), n1, m)))
    ∧ (∀ c tt ft ia, st = .condJump c tt ft ia →
        ((loopSuccessorAddrs.contains tt && loopNodeAddrs.contains ft) = true →
            convertLoopExitStep m loopSuccessorAddrs loopNodeAddrs node =
              (removeLastStatement node).bind (fun n1 =>
                (boolVariableFromAilCondition m c).map (fun p =>
                  (some (.condBreakN ia p.1 tt), n1, p.2))))
        ∧ ((loopSuccessorAddrs.contains tt && loopNodeAddrs.contains ft) = false →
            (loopSuccessorAddrs.contains ft && loopNodeAddrs.contains tt) = true →
            convertLoopExitStep m loopSuccessorAddrs loopNodeAddrs node =
              (removeLastStatement node).bind (fun n1 =>
                (boolVariableFromAilCondition m (.unop "Not" c)).map (fun p =>
                  (some (.condBreakN ia p.1 ft), n1, p.2))))
        ∧ ((loopSuccessorAddrs.contains tt && loopNodeAddrs.contains ft) = false →
            (loopSuccessorAddrs.contains ft && loopNodeAddrs.contains tt) = false →
            convertLoopExitStep m loopSuccessorAddrs loopNodeAddrs node =
              .error .genericExc)) := by
  have hexitp : ∃ x ∈ extractJumpTargets (some st), x ∈ loopSuccessorAddrs := by
    simpa using hexit
  constructor
  · intro t ia hst
    subst hst
    unfold convertLoopExitStep
    rw [hlast]
    cases hr : removeLastStatement node <;>
      simp [bind, Except.bind, Except.map, pure, Except.pure, hexitp, hr]
  · intro c tt ft ia hst
    subst hst
    refine ⟨?_, ?_, ?_⟩
    · intro h1
      have h1p : tt ∈ loopSuccessorAddrs ∧ ft ∈ loopNodeAddrs := by
        simpa using h1
      unfold convertLoopExitStep
      rw [hlast]
      cases hr : removeLastStatement node with
      | error e =>
          simp [bind, Except.bind, Except.map, pure, Except.pure, hexitp, h1p,
            hr]
      | ok n1 =>
          cases hb : boolVariableFromAilCondition m c <;>
            simp [bind, Except.bind, Except.map, pure, Except.pure, hexitp, h1p,
              hr, hb]
    · intro h1 h2
      have h1p : ¬(tt ∈ loopSuccessorAddrs ∧ ft ∈ loopNodeAddrs) := by
        simpa using h1
      have h2p : ft ∈ loopSuccessorAddrs ∧ tt ∈ loopNodeAddrs := by
        simpa using h2
      unfold convertLoopExitStep
      rw [hlast]
      cases hr : removeLastStatement node with
      | error e =>
          simp [bind, Except.bind, Except.map, pure, Except.pure, hexitp, h1p,
            h2p, hr]
      | ok n1 =>
          cases hb : boolVariableFromAilCondition m (.unop "Not" c) <;>
            simp [bind, Except.bind, Except.map, pure, Except.pure, hexitp, h1p,
              h2p, hr, hb]
    · intro h1 h2
      have h1p : ¬(tt ∈ loopSuccessorAddrs ∧ ft ∈ loopNodeAddrs) := by
        simpa using h1
      have h2p : ¬(ft ∈ loopSuccessorAddrs ∧ tt ∈ loopNodeAddrs) := by
        simpa using h2
      unfold convertLoopExitStep
      rw [hlast]
      simp [bind, Except.bind, Except.map, pure, Except.pure, hexitp, h1p, h2p]

/-- C5 witness: the conversion theorem applied to a block whose conditional
jump exits through its true arm. -/
theorem c5_loop_exit_conversion_witness :
    convertLoopExitStep [] [9] [3, 4]
        (.block 3 [.assign 0, .condJump (.register 32 2 0) 9 4 300]) =
      (removeLastStatement
          (PNode.block 3 [.assign 0, .condJump (.register 32 2 0) 9 4 300] :
            PNode CExpr)).bind
        (fun n1 =>
          (boolVariableFromAilCondition [] (.register 32 2 0)).map (fun p =>
            (some (.condBreakN 300 p.1 9), n1, p.2))) :=
  ((c5_loop_exit_conversion [] [9] [3, 4]
        (.block 3 [.assign 0, .condJump (.register 32 2 0) 9 4 300])
        (.condJump (.register 32 2 0) 9 4 300) rfl (by decide)).2
      (.register 32 2 0) 9 4 300 rfl).1 (by decide)

/-- C6: after the loop body has been structured, a trailing unconditional
Jump back to the loop head is removed from the body, while a trailing Jump
to any other address raises, aborting structuring with no partial output. -/
theorem c6_structured_body_trailing_jump {α : Type} (headAddr : Addr)
    (seq : PNode α) (t ia : Addr)
    (hlast : getLastStatement seq = .ok (some (.jump t ia))) :
    (t ≠ headAddr → dropTrailingJumpToHead headAddr seq = .error .genericExc)
    ∧ (t = headAddr →
        dropTrailingJumpToHead headAddr seq = removeLastStatement seq) := by
  constructor
  · intro hne
    unfold dropTrailingJumpToHead
    rw [hlast]
    simp [bind, Except.bind, hne]
  · intro heq
    subst heq
    unfold dropTrailingJumpToHead
    rw [hlast]
    simp [bind, Except.bind]

/-- C6 witness: the trailing-jump theorem applied to a structured body
ending in a jump back to the head address. -/
theorem c6_structured_body_trailing_jump_witness :
    dropTrailingJumpToHead 1
        ((PNode.seqN [.block 1 [.assign 0, .jump 1 50]]) : PNode CExpr) =
      removeLastStatement
        ((PNode.seqN [.block 1 [.assign 0, .jump 1 50]]) : PNode CExpr) :=
  (c6_structured_body_trailing_jump 1
      ((PNode.seqN [.block 1 [.assign 0, .jump 1 50]]) : PNode CExpr) 1 50
      rfl).2 rfl

theorem boolVarResult_independent (c : AilExpr) :
    ∀ m1 m2 : CondMap,
      (boolVariableFromAilCondition m1 c).map (fun p => p.1) =
        (boolVariableFromAilCondition m2 c).map (fun p => p.1) := by
  induction c with
  | load b u => intro m1 m2; rfl
  | register b r i => intro m1 m2; rfl
  | const v b => intro m1 m2; rfl
  | convert fb tb inner ih =>
      intro m1 m2
      cases hb1 : boolVariableFromAilCondition m1 inner with
      | error e1 =>
          cases hb2 : boolVariableFromAilCondition m2 inner with
          | error e2 =>
              have hh := ih m1 m2
              rw [hb1, hb2] at hh
              simp only [Except.map] at hh
              cases hh
              simp [boolVariableFromAilCondition, hb1, hb2, bind, Except.bind,
                Except.map]
          | ok p2 =>
              have hh := ih m1 m2
              rw [hb1, hb2] at hh
              simp [Except.map] at hh
      | ok p1 =>
          cases hb2 : boolVariableFromAilCondition m2 inner with
          | error e2 =>
              have hh := ih m1 m2
              rw [hb1, hb2] at hh
              simp [Except.map] at hh
          | ok p2 =>
              have hv : p1.1 = p2.1 := by
                have hh := ih m1 m2
                rw [hb1, hb2] at hh
                simpa [Except.map] using hh
              by_cases htb : tb = 1 <;>
                simp [boolVariableFromAilCondition, hb1, hb2, bind, Except.bind,
                  Except.map, htb, hv]
  | unop op inner ih =>
      intro m1 m2
      by_cases hop : op = "Not"
      · subst hop
        cases hb1 : boolVariableFromAilCondition m1 inner with
        | error e1 =>
            cases hb2 : boolVariableFromAilCondition m2 inner with
            | error e2 =>
                have hh := ih m1 m2
                rw [hb1, hb2] at hh
                simp only [Except.map] at hh
                cases hh
                simp [boolVariableFromAilCondition, hb1, hb2, bind, Except.bind,
                  Except.map]
            | ok p2 =>
                have hh := ih m1 m2
                rw [hb1, hb2] at hh
                simp [Except.map] at hh
        | ok p1 =>
            cases hb2 : boolVariableFromAilCondition m2 inner with
            | error e2 =>
                have hh := ih m1 m2
                rw [hb1, hb2] at hh
                simp [Except.map] at hh
            | ok p2 =>
                have hv : p1.1 = p2.1 := by
                  have hh := ih m1 m2
                  rw [hb1, hb2] at hh
                  simpa [Except.map] using hh
                simp [boolVariableFromAilCondition, hb1, hb2, bind, Except.bind,
                  Except.map, hv]
      · simp [boolVariableFromAilCondition, hop]
  | binop op a b iha ihb =>
      intro m1 m2
      by_cases hop : op = "Shr"
      · subst hop
        cases hb1 : boolVariableFromAilCondition m1 a with
        | error e1 =>
            cases hb2 : boolVariableFromAilCondition m2 a with
            | error e2 =>
                have hh := iha m1 m2
                rw [hb1, hb2] at hh
                simp only [Except.map] at hh
                cases hh
                cases b <;>
                  simp [boolVariableFromAilCondition, hb1, hb2, bind,
                    Except.bind, Except.map]
            | ok p2 =>
                have hh := iha m1 m2
                rw [hb1, hb2] at hh
                simp [Except.map] at hh
        | ok p1 =>
            cases hb2 : boolVariableFromAilCondition m2 a with
            | error e2 =>
                have hh := iha m1 m2
                rw [hb1, hb2] at hh
                simp [Except.map] at hh
            | ok p2 =>
                have hv : p1.1 = p2.1 := by
                  have hh := iha m1 m2
                  rw [hb1, hb2] at hh
                  simpa [Except.map] using hh
                cases b <;>
                  simp [boolVariableFromAilCondition, hb1, hb2, bind,
                    Except.bind, Except.map, hv]
      · cases htab : ailBinOpTable op with
        | none =>
            simp [boolVariableFromAilCondition, hop, htab]
        | some f =>
            cases hb1 : boolVariableFromAilCondition m1 a with
            | error e1 =>
                cases hb2 : boolVariableFromAilCondition m2 a with
                | error e2 =>
                    have hh := iha m1 m2
                    rw [hb1, hb2] at hh
                    simp only [Except.map] at hh
                    cases hh
                    simp [boolVariableFromAilCondition, hop, htab, hb1, hb2,
                      bind, Except.bind, Except.map]
                | ok p2 =>
                    have hh := iha m1 m2
                    rw [hb1, hb2] at hh
                    simp [Except.map] at hh
            | ok p1 =>
                cases hb2 : boolVariableFromAilCondition m2 a with
                | error e2 =>
                    have hh := iha m1 m2
                    rw [hb1, hb2] at hh
                    simp [Except.map] at hh
                | ok p2 =>
                    have hv : p1.1 = p2.1 := by
                      have hh := iha m1 m2
                      rw [hb1, hb2] at hh
                      simpa [Except.map] using hh
                    cases hc1 : boolVariableFromAilCondition p1.2 b with
                    | error e3 =>
                        cases hc2 : boolVariableFromAilCondition p2.2 b with
                        | error e4 =>
                            have hh := ihb p1.2 p2.2
                            rw [hc1, hc2] at hh
                            simp only [Except.map] at hh
                            cases hh
                            simp [boolVariableFromAilCondition, hop, htab, hb1,
                              hb2, hc1, hc2, bind, Except.bind, Except.map]
                        | ok q2 =>
                            have hh := ihb p1.2 p2.2
                            rw [hc1, hc2] at hh
                            simp [Except.map] at hh
                    | ok q1 =>
                        cases hc2 : boolVariableFromAilCondition p2.2 b with
                        | error e4 =>
                            have hh := ihb p1.2 p2.2
                            rw [hc1, hc2] at hh
                            simp [Except.map] at hh
                        | ok q2 =>
                            have hw : q1.1 = q2.1 := by
                              have hh := ihb p1.2 p2.2
                              rw [hc1, hc2] at hh
                              simpa [Except.map] using hh
                            simp [boolVariableFromAilCondition, hop, htab, hb1,
                              hb2, hc1, hc2, bind, Except.bind, Except.map, hv,
                              hw]

/-- C3 (counterexample): an entry created while structuring a nested loop
body is NOT visible to the enclosing call.  The recursive Structurer call of
`_to_loop_body_sequence` receives `self._condition_mapping.copy()`: the
translation of a Register condition inside the sub-call creates a mapping
entry in the copy, and the enclosing call's mapping (the first component of
the result) does not contain it. -/
theorem c3_counterexample :
    loopBodyRecursiveStructure [] [.register 32 0 0] =
        .ok ([],
          [(CExpr.bvs "ailexpr_Register(32,0,0)-0" 32, .register 32 0 0)]) ∧
      lookupMap [] (CExpr.bvs "ailexpr_Register(32,0,0)-0" 32) = none := by
  exact ⟨rfl, rfl⟩

/-- C3 (amended): the condition-variable mapping is NOT shared by reference
with the recursive loop-body structuring call — the sub-call receives a copy
(line 623), so the enclosing call's mapping after the call is exactly the
mapping it passed in, without the sub-call's additions; nevertheless,
identical native sub-expressions map to the same algebra variable in every
call, because the produced variable is determined by the expression alone
(the names are `explicit_name` renderings of the expression, and the
translation never reads the mapping). -/
theorem c3_condition_mapping :
    (∀ (m : CondMap) (bodyConds : List AilExpr) (r : CondMap × CondMap),
        loopBodyRecursiveStructure m bodyConds = .ok r → r.1 = m)
    ∧ (∀ (c : AilExpr) (m1 m2 : CondMap),
        boolVarResult m1 c = boolVarResult m2 c) := by
  constructor
  · intro m bodyConds r h
    unfold loopBodyRecursiveStructure at h
    cases hs : structureRegionConditions (copyMap m) bodyConds with
    | error e =>
        rw [hs] at h
        simp [bind, Except.bind] at h
    | ok inner =>
        rw [hs] at h
        simp only [bind, Except.bind, pure, Except.pure, Except.ok.injEq] at h
        rw [← h]
  · intro c m1 m2
    exact boolVarResult_independent c m1 m2

/-- C3 witness: the amended theorem applied to the concrete recursive call
above and to the Register condition translated under two different
mappings. -/
theorem c3_condition_mapping_witness :
    (([], [(CExpr.bvs "ailexpr_Register(32,0,0)-0" 32,
          AilExpr.register 32 0 0)]) : CondMap × CondMap).1 = ([] : CondMap) ∧
      boolVarResult [] (.register 32 0 0) =
        boolVarResult [(CExpr.bvs "x" 1, .const 0 1)] (.register 32 0 0) :=
  ⟨c3_condition_mapping.1 [] [.register 32 0 0]
      ([], [(CExpr.bvs "ailexpr_Register(32,0,0)-0" 32,
        AilExpr.register 32 0 0)]) (by rfl),
    c3_condition_mapping.2 (.register 32 0 0) []
      [(CExpr.bvs "x" 1, .const 0 1)]⟩

theorem mergeCBStepCB_eq_merge {simpf : CExpr → CExpr}
    {prev : Option (PNode CExpr)} {acc : List (PNode CExpr)}
    {a : Addr} {c : CExpr} {t : Addr} {p : PNode CExpr}
    {pa : Addr} {pc : CExpr} {pt : Addr}
    (hp : prev = some p) (hup : unwrapCode p = .condBreakN pa pc pt) :
    mergeCBStepCB simpf prev acc a c t =
      .condBreakN a (simpf (.cor c pc)) t :: acc.tail := by
  subst hp
  simp only [mergeCBStepCB, hup]

theorem mergeCBStepCB_eq_push {simpf : CExpr → CExpr}
    {prev : Option (PNode CExpr)} {acc : List (PNode CExpr)}
    {a : Addr} {c : CExpr} {t : Addr}
    (h : prevIsCB prev = false) :
    mergeCBStepCB simpf prev acc a c t = .condBreakN a c t :: acc := by
  cases prev with
  | none => rfl
  | some p =>
      replace h : isCondBreak (unwrapCode p) = false := h
      simp only [mergeCBStepCB]
      cases hup : unwrapCode p with
      | condBreakN pa pc pt =>
          rw [hup] at h
          simp [isCondBreak] at h
      | block x y => rfl
      | multi x y => rfl
      | regionN x => rfl
      | seqN x => rfl
      | codeN x y => rfl
      | condN x y z u v => rfl
      | loopN x y z u => rfl
      | breakN x y => rfl

theorem chainR_cons_of_false {x : PNode CExpr} {acc : List (PNode CExpr)}
    (hx : isCondBreak x = false)
    (hchain : List.Chain'
        (fun a b => isCondBreak a = false ∨ isCondBreak b = false) acc) :
    List.Chain' (fun a b => isCondBreak a = false ∨ isCondBreak b = false)
      (x :: acc) :=
  List.chain'_cons'.mpr ⟨fun _ _ => Or.inl hx, hchain⟩

theorem chainR_cons_of_head {x : PNode CExpr} {acc : List (PNode CExpr)}
    (hhead : headIsCB acc = false)
    (hchain : List.Chain'
        (fun a b => isCondBreak a = false ∨ isCondBreak b = false) acc) :
    List.Chain' (fun a b => isCondBreak a = false ∨ isCondBreak b = false)
      (x :: acc) := by
  refine List.chain'_cons'.mpr ⟨?_, hchain⟩
  intro y hy
  cases acc with
  | nil => simp at hy
  | cons a t =>
      simp only [List.head?_cons, Option.mem_def, Option.some.injEq] at hy
      subst hy
      exact Or.inr hhead

theorem headIsCB_tail_of_chain {a0 : PNode CExpr} {acc2 : List (PNode CExpr)}
    (hchain : List.Chain'
        (fun a b => isCondBreak a = false ∨ isCondBreak b = false) (a0 :: acc2))
    (ha0 : isCondBreak a0 = true) :
    headIsCB acc2 = false := by
  cases acc2 with
  | nil => rfl
  | cons a1 t =>
      have hR := (List.chain'_cons'.mp hchain).1 a1 (by simp)
      cases hR with
      | inl h =>
          rw [ha0] at h
          cases h
      | inr h => exact h

theorem mergeCBAux_chain (simpf : CExpr → CExpr) :
    ∀ (ns : List (PNode CExpr)) (prev : Option (PNode CExpr))
      (acc : List (PNode CExpr)),
      List.Chain'
        (fun a b => isCondBreak a = false ∨ isCondBreak b = false) acc →
      headIsCB acc = prevIsCB prev →
      List.Chain' (fun a b => isCondBreak a = false ∨ isCondBreak b = false)
        (mergeCBAux simpf prev acc ns) := by
  intro ns
  induction ns with
  | nil =>
      intro prev acc hchain hinv
      simp only [mergeCBAux]
      rw [List.chain'_reverse]
      exact hchain.imp (fun a b h => h.symm)
  | cons n rest ih =>
      intro prev acc hchain hinv
      have hcbStep : ∀ (a : Addr) (c : CExpr) (t : Addr),
          List.Chain'
            (fun a b => isCondBreak a = false ∨ isCondBreak b = false)
            (mergeCBStepCB simpf prev acc a c t) ∧
          headIsCB (mergeCBStepCB simpf prev acc a c t) = true := by
        intro a c t
        by_cases hpc : prevIsCB prev = true
        · obtain ⟨p, hp⟩ : ∃ p, prev = some p := by
            cases prev with
            | none => simp [prevIsCB] at hpc
            | some p => exact ⟨p, rfl⟩
          subst hp
          have hcbp : isCondBreak (unwrapCode p) = true := by
            simpa [prevIsCB] using hpc
          obtain ⟨pa, pc, pt, hup⟩ := isCondBreak_shape _ hcbp
          rw [mergeCBStepCB_eq_merge rfl hup]
          have hacc : headIsCB acc = true := hinv.trans hpc
          cases acc with
          | nil => simp [headIsCB] at hacc
          | cons a0 acc2 =>
              have ha0 : isCondBreak a0 = true := hacc
              refine ⟨chainR_cons_of_head
                (headIsCB_tail_of_chain hchain ha0) hchain.tail, rfl⟩
        · have hp : prevIsCB prev = false := by
            revert hpc
            cases prevIsCB prev <;> simp
          rw [mergeCBStepCB_eq_push hp]
          exact ⟨chainR_cons_of_head (hinv.trans hp) hchain, rfl⟩
      cases n with
      | codeN inner rc =>
          cases inner with
          | seqN children =>
              simp only [mergeCBAux]
              exact ih _ _ (chainR_cons_of_false rfl hchain) rfl
          | condBreakN a c t =>
              simp only [mergeCBAux]
              exact ih _ _ (hcbStep a c t).1 ((hcbStep a c t).2.trans rfl)
          | block x y =>
              simp only [mergeCBAux]
              exact ih _ _ (chainR_cons_of_false rfl hchain) rfl
          | multi x y =>
              simp only [mergeCBAux]
              exact ih _ _ (chainR_cons_of_false rfl hchain) rfl
          | regionN x =>
              simp only [mergeCBAux]
              exact ih _ _ (chainR_cons_of_false rfl hchain) rfl
          | codeN x y =>
              simp only [mergeCBAux]
              exact ih _ _ (chainR_cons_of_false rfl hchain) rfl
          | condN x y z u v =>
              simp only [mergeCBAux]
              exact ih _ _ (chainR_cons_of_false rfl hchain) rfl
          | loopN x y z u =>
              simp only [mergeCBAux]
              exact ih _ _ (chainR_cons_of_false rfl hchain) rfl
          | breakN x y =>
              simp only [mergeCBAux]
              exact ih _ _ (chainR_cons_of_false rfl hchain) rfl
      | seqN children =>
          simp only [mergeCBAux]
          exact ih _ _ (chainR_cons_of_false rfl hchain) rfl
      | condBreakN a c t =>
          simp only [mergeCBAux]
          exact ih _ _ (hcbStep a c t).1 ((hcbStep a c t).2.trans rfl)
      | block x y =>
          simp only [mergeCBAux]
          exact ih _ _ (chainR_cons_of_false rfl hchain) rfl
      | multi x y =>
          simp only [mergeCBAux]
          exact ih _ _ (chainR_cons_of_false rfl hchain) rfl
      | regionN x =>
          simp only [mergeCBAux]
          exact ih _ _ (chainR_cons_of_false rfl hchain) rfl
      | condN x y z u v =>
          simp only [mergeCBAux]
          exact ih _ _ (chainR_cons_of_false rfl hchain) rfl
      | loopN x y z u =>
          simp only [mergeCBAux]
          exact ih _ _ (chainR_cons_of_false rfl hchain) rfl
      | breakN x y =>
          simp only [mergeCBAux]
          exact ih _ _ (chainR_cons_of_false rfl hchain) rfl

theorem getLast_getD_cons {T : Type} (q : T) (qs : List T) (p : T) :
    (q :: qs).getLast?.getD p = qs.getLast?.getD q := by
  cases qs with
  | nil => rfl
  | cons r t =>
      rw [List.getLast?_cons_cons]
      cases hgl : (r :: t).getLast? with
      | none =>
          exact absurd hgl (by simp)
      | some x => simp [hgl]

theorem mergeCBAux_run (simpf : CExpr → CExpr) :
    ∀ (ps : List (Addr × CExpr × Addr)) (y p : Addr × CExpr × Addr)
      (w : PNode CExpr),
      mergeCBAux simpf (some (.condBreakN p.1 p.2.1 p.2.2)) [w]
          ((ps ++ [y]).map (fun q => PNode.condBreakN q.1 q.2.1 q.2.2)) =
        [.condBreakN y.1 (simpf (.cor y.2.1 (ps.getLast?.getD p).2.1)) y.2.2] := by
  intro ps
  induction ps with
  | nil =>
      intro y p w
      simp [mergeCBAux, mergeCBStepCB, unwrapCode]
  | cons q qs ihq =>
      intro y p w
      simp only [List.cons_append, List.map_cons, mergeCBAux]
      rw [mergeCBStepCB_eq_merge rfl
        (show unwrapCode (PNode.condBreakN p.1 p.2.1 p.2.2) =
          PNode.condBreakN p.1 p.2.1 p.2.2 from rfl)]
      simp only [List.tail_cons]
      rw [ihq y q (.condBreakN q.1 (simpf (.cor q.2.1 p.2.1)) q.2.2)]
      rw [getLast_getD_cons]

/-- C8 (counterexample): merging a run of THREE adjacent ConditionalBreaks
does not OR all three conditions: each merge reads the ORIGINAL previous
node's condition from `seq.nodes[i-1]`, so the result keeps only the OR of
the last two conditions and the first condition `a` is dropped — the output
condition does not even evaluate like any OR involving `a`. -/
theorem c8_counterexample :
    mergeConditionalBreaks id
        [.condBreakN 1 (.bvs "a" 1) 9, .condBreakN 2 (.bvs "b" 1) 9,
          .condBreakN 3 (.bvs "c" 1) 9] =
      [.condBreakN 3 (.cor (.bvs "c" 1) (.bvs "b" 1)) 9] ∧
    evalC (fun e => e == .bvs "a" 1) (.cor (.bvs "c" 1) (.bvs "b" 1)) = false ∧
    evalC (fun e => e == .bvs "a" 1)
      (.cor (.cor (.bvs "a" 1) (.bvs "b" 1)) (.bvs "c" 1)) = true := by
  refine ⟨?_, by decide, by decide⟩
  simp [mergeConditionalBreaks, mergeCBAux, mergeCBStepCB, unwrapCode,
    isCondBreak]

/-- C8 (amended): in the output of conditional-break merging no two adjacent
children are ConditionalBreak nodes, and every input that is a run of `n ≥ 2`
adjacent ConditionalBreaks collapses to a single ConditionalBreak — carrying
the last node's address and target, but whose condition is the simplified OR
of only the LAST TWO input conditions (conditions of earlier run members are
dropped). -/
theorem c8_merge_conditional_breaks :
    (∀ (simpf : CExpr → CExpr) (ns : List (PNode CExpr)),
        List.Chain' (fun x y => isCondBreak x = false ∨ isCondBreak y = false)
          (mergeConditionalBreaks simpf ns))
    ∧ (∀ (simpf : CExpr → CExpr) (l : List (Addr × CExpr × Addr))
        (x y : Addr × CExpr × Addr),
        mergeConditionalBreaks simpf
            ((l ++ [x, y]).map (fun q => PNode.condBreakN q.1 q.2.1 q.2.2)) =
          [.condBreakN y.1 (simpf (.cor y.2.1 x.2.1)) y.2.2]) := by
  constructor
  · intro simpf ns
    exact mergeCBAux_chain simpf ns none [] List.chain'_nil rfl
  · intro simpf l x y
    cases l with
    | nil =>
        unfold mergeConditionalBreaks
        simp [mergeCBAux, mergeCBStepCB, unwrapCode]
    | cons a l2 =>
        unfold mergeConditionalBreaks
        simp only [List.cons_append, List.map_cons, mergeCBAux]
        rw [mergeCBStepCB_eq_push (show prevIsCB none = false from rfl)]
        have hl : (l2 ++ [x, y]) = ((l2 ++ [x]) ++ [y]) := by
          simp
        rw [hl]
        rw [mergeCBAux_run simpf (l2 ++ [x]) y a
          (.condBreakN a.1 a.2.1 a.2.2)]
        rw [show (l2 ++ [x]).getLast? = some x from List.getLast?_concat _]
        simp

end Structurer
